import Mathlib

/-!
The type-support classifier of cuegen, `references/cuegen/types.go`.

A shallow embedding of `supportedType` over an explicit model of the
`go/types` type graph, and the properties of the classifier proved on it.

* A Go type object is a node of a graph; its identity is an element of `Ty`
  (pointer identity of `gotypes.Type` values). The graph is finite:
  `Ty` is a `Fintype`.
* `TypeGraph.shape` gives the dynamic type of a type object and its
  components, `TypeGraph.underlying` the result of `Underlying()`.
* The `error` result is `Except Err Unit`; an `Err` carries the type
  identities that `fmt.Errorf` formats into the message.
* The stack is a list and `append(stack, t)` is `stack ++ [t]`. The version
  `supportedTypeMem` keeps the stack in a slice over a heap of backing arrays,
  where `append` writes in place; it is proved to return the same values
  (`supportedTypeMem_eq`).
-/

deriving instance DecidableEq for Except

namespace Cuegen

/-- The `gotypes.BasicKind` constants. -/
inductive BasicKind
  | Invalid
  | Bool | Int | Int8 | Int16 | Int32 | Int64
  | Uint | Uint8 | Uint16 | Uint32 | Uint64 | Uintptr
  | Float32 | Float64 | Complex64 | Complex128
  | String | UnsafePointer
  | UntypedBool | UntypedInt | UntypedRune | UntypedFloat | UntypedComplex
  | UntypedString | UntypedNil
  deriving DecidableEq

/-- The predeclared `*gotypes.Basic` objects: the entries of `gotypes.Typ`
and the two aliases `byte` and `rune`. -/
inductive Basic
  | typ (k : BasicKind)
  | byte
  | rune
  deriving DecidableEq

/-- The method `(*gotypes.Basic).Kind()`. -/
def Basic.Kind : Basic → BasicKind
  | .typ k => k
  | .byte => .Uint8
  | .rune => .Int32

/-- The method `(*gotypes.Basic).String()`: the name of the basic type as `go/types`
prints it. -/
def Basic.String : Basic → String
  | .byte => "byte"
  | .rune => "rune"
  | .typ .Invalid => "invalid type"
  | .typ .Bool => "bool"
  | .typ .Int => "int"
  | .typ .Int8 => "int8"
  | .typ .Int16 => "int16"
  | .typ .Int32 => "int32"
  | .typ .Int64 => "int64"
  | .typ .Uint => "uint"
  | .typ .Uint8 => "uint8"
  | .typ .Uint16 => "uint16"
  | .typ .Uint32 => "uint32"
  | .typ .Uint64 => "uint64"
  | .typ .Uintptr => "uintptr"
  | .typ .Float32 => "float32"
  | .typ .Float64 => "float64"
  | .typ .Complex64 => "complex64"
  | .typ .Complex128 => "complex128"
  | .typ .String => "string"
  | .typ .UnsafePointer => "unsafe.Pointer"
  | .typ .UntypedBool => "untyped bool"
  | .typ .UntypedInt => "untyped int"
  | .typ .UntypedRune => "untyped rune"
  | .typ .UntypedFloat => "untyped float"
  | .typ .UntypedComplex => "untyped complex"
  | .typ .UntypedString => "untyped string"
  | .typ .UntypedNil => "untyped nil"

/-- A struct field (`*gotypes.Var`): its name, its type and the result of
`Exported()`. -/
structure Field (Ty : Type) where
  name : String
  typ : Ty
  exported : Bool
  deriving DecidableEq

/-- The dynamic type of a `gotypes.Type` object together with the components
the classifier reads. The last six constructors are the type objects the
type switch of `supportedType` has no case for. -/
inductive Shape (Ty : Type)
  | basic (b : Basic)
  | named
  | pointer (elem : Ty)
  | slice (elem : Ty)
  | array (len : Int) (elem : Ty)
  | map (key : Ty) (elem : Ty)
  | struct (fields : List (Field Ty))
  | interface
  | chan (elem : Ty)
  | signature (params results : Ty)
  | tuple (vars : List Ty)
  | union
  | typeParam
  | alias
  deriving DecidableEq

/-- The type graph handed over by the loader: for every type object its
dynamic shape and the type object its `Underlying()` method returns. -/
structure TypeGraph (Ty : Type) where
  shape : Ty → Shape Ty
  underlying : Ty → Ty

/-- The three diagnostics of `supportedType`, each with the type objects
that are formatted into its message. -/
inductive Err (Ty : Type)
  | recursiveType (t : Ty)
  | unsupportedType (t : Ty)
  | unsupportedMapKey (key : Ty) (m : Ty)
  deriving DecidableEq

/-- The text of a diagnostic, given the `String()` of every type object. -/
def Err.Error {Ty : Type} (str : Ty → String) : Err Ty → String
  | .recursiveType t => "recursive type " ++ str t
  | .unsupportedType t => "unsupported type " ++ str t
  | .unsupportedMapKey k m => "unsupported map key type " ++ str k ++ " of " ++ str m

variable {Ty : Type}

/-- The result of a call: `none` while the call has not returned, `some r`
when it returned the `error` value `r`. -/
abbrev Outcome (Ty : Type) := Option (Except (Err Ty) Unit)

/-- The key test of the map case:
`b, ok := x.Key().Underlying().(*gotypes.Basic); ok && b.Kind() == gotypes.String`. -/
def stringKey (g : TypeGraph Ty) (key : Ty) : Bool :=
  match g.shape (g.underlying key) with
  | .basic b => b.Kind = .String
  | _ => false

/-- The field loop of the struct case, over a classifier `f` for the field
types: the first exported field whose type fails ends the loop with that
failure; `none` when a call of `f` did not return. -/
def fieldLoop (f : Ty → Outcome Ty) : List (Field Ty) → Outcome Ty
  | [] => some (.ok ())
  | fld :: rest =>
    if fld.exported then
      match f fld.typ with
      | none => none
      | some (.error e) => some (.error e)
      | some (.ok _) => fieldLoop f rest
    else fieldLoop f rest

/-- The body of `supportedType`, with `self` in the place of the five
recursive calls. -/
def supportedTypeBody [DecidableEq Ty] (g : TypeGraph Ty)
    (self : List Ty → Ty → Outcome Ty) (stack : List Ty) (t : Ty) : Outcome Ty :=
  if t ∈ stack then some (.error (.recursiveType t))
  else
    let stack1 := stack ++ [t]
    let u := g.underlying t
    match g.shape u with
    | .basic x =>
      if x.String ≠ "invalid type" then some (.ok ())
      else some (.error (.unsupportedType u))
    | .named => some (.ok ())
    | .pointer elem => self stack1 elem
    | .slice elem => self stack1 elem
    | .array _ elem => self stack1 elem
    | .map key elem =>
      if !stringKey g key then some (.error (.unsupportedMapKey key u))
      else self stack1 elem
    | .struct fields =>
      if fields.length = 0 then some (.ok ())
      else fieldLoop (self stack1) fields
    | .interface => some (.ok ())
    | _ => some (.error (.unsupportedType u))

/-- The recursion of `supportedType` cut at depth `fuel`: `none` when the
depth is reached, `some r` when the call returns `r`. -/
def supportedTypeFuel [DecidableEq Ty] (g : TypeGraph Ty) :
    Nat → List Ty → Ty → Outcome Ty
  | 0, _, _ => none
  | fuel + 1, stack, t => supportedTypeBody g (supportedTypeFuel g fuel) stack t

/-- The number of types of the graph that are not on the stack: the measure
that every recursive call of `supportedType` decreases. -/
def unvisited [DecidableEq Ty] [Fintype Ty] (stack : List Ty) : Nat :=
  (Finset.univ.filter (fun x : Ty => x ∉ stack)).card

/-- The component types of `t` that `supportedType` can recurse into: the
element of a pointer, slice or array, the value type of a map, the types of
the exported fields of a struct. -/
def children (g : TypeGraph Ty) (t : Ty) : List Ty :=
  match g.shape (g.underlying t) with
  | .pointer elem => [elem]
  | .slice elem => [elem]
  | .array _ elem => [elem]
  | .map _ elem => [elem]
  | .struct fields => (fields.filter (fun fld => fld.exported)).map (fun fld => fld.typ)
  | _ => []

/-- One edge of the type graph that the classifier follows. -/
def Edge (g : TypeGraph Ty) (a b : Ty) : Prop := b ∈ children g a

/-- Reachability along the edges the classifier follows, `a` included. -/
def Reach (g : TypeGraph Ty) (a b : Ty) : Prop := Relation.ReflTransGen (Edge g) a b

/-- Reachability in one step or more: `a` reaches `b` along at least one edge. -/
def Reach1 (g : TypeGraph Ty) (a b : Ty) : Prop := Relation.TransGen (Edge g) a b

/-- The first field in declaration order that is exported and whose type
fails under `f` decides: its failure is the result, success when there is
none. -/
def firstFailure (f : Ty → Except (Err Ty) Unit) (fields : List (Field Ty)) :
    Except (Err Ty) Unit :=
  match fields.find? (fun fld => fld.exported && !(f fld.typ).toBool) with
  | some fld => f fld.typ
  | none => .ok ()

/-- The shapes for which the type switch of `supportedType` has no case. -/
def Shape.unhandled : Shape Ty → Bool
  | .chan _ => true
  | .signature _ _ => true
  | .tuple _ => true
  | .union => true
  | .typeParam => true
  | .alias => true
  | _ => false

/-- Whether the shape of `t` itself passes the type switch: a basic type
other than the invalid one, a map with a string key, or one of the other
handled shapes. -/
def accepted (g : TypeGraph Ty) (t : Ty) : Bool :=
  match g.shape (g.underlying t) with
  | .basic b => decide (b.String ≠ "invalid type")
  | .named => true
  | .pointer _ => true
  | .slice _ => true
  | .array _ _ => true
  | .map key _ => stringKey g key
  | .struct _ => true
  | .interface => true
  | _ => false

/-! The stack as a Go slice

`append(stack, t)` writes into the backing array of `stack` when there is
spare capacity, so the stacks of sibling calls can share memory. The
definitions below model the slice header and the heap of backing arrays; the
list model above is proved to give the same results. -/

/-- A slice header: the backing array, the length and the capacity. -/
structure Slice where
  arr : Nat
  len : Nat
  cap : Nat

/-- The backing arrays: the cell `i` of the array `a` (`none` is a nil
`Type`), and the first array that is not allocated yet. -/
structure Heap (Ty : Type) where
  cell : Nat → Nat → Option Ty
  next : Nat

/-- The elements of a slice, as `range` visits them. -/
def Heap.view (h : Heap Ty) (s : Slice) : List (Option Ty) :=
  (List.range s.len).map (h.cell s.arr)

/-- The builtin `append(s, t)`: in place when the capacity allows, otherwise
into a new array with `grow s.len` spare cells, to which the elements of `s`
are copied. -/
def Heap.append (grow : Nat → Nat) (h : Heap Ty) (s : Slice) (t : Ty) : Slice × Heap Ty :=
  if s.len < s.cap then
    (⟨s.arr, s.len + 1, s.cap⟩,
      ⟨fun a i => if a = s.arr ∧ i = s.len then some t else h.cell a i, h.next⟩)
  else
    (⟨h.next, s.len + 1, s.len + 1 + grow s.len⟩,
      ⟨fun a i =>
        if a = h.next then
          if i < s.len then h.cell s.arr i else if i = s.len then some t else none
        else h.cell a i, h.next + 1⟩)

/-- The result of a call together with the heap it leaves behind. -/
abbrev OutcomeMem (Ty : Type) := Option (Except (Err Ty) Unit × Heap Ty)

/-- The field loop of the struct case, the heap handed from one call to the
next. -/
def fieldLoopMem (f : Heap Ty → Ty → OutcomeMem Ty) :
    Heap Ty → List (Field Ty) → OutcomeMem Ty
  | h, [] => some (.ok (), h)
  | h, fld :: rest =>
    if fld.exported then
      match f h fld.typ with
      | none => none
      | some (.error e, h1) => some (.error e, h1)
      | some (.ok _, h1) => fieldLoopMem f h1 rest
    else fieldLoopMem f h rest

/-- The body of `supportedType` on a slice and a heap, with `self` in the
place of the recursive calls. -/
def supportedTypeMemBody [DecidableEq Ty] (g : TypeGraph Ty) (grow : Nat → Nat)
    (self : Heap Ty → Slice → Ty → OutcomeMem Ty) (h : Heap Ty) (stack : Slice) (t : Ty) :
    OutcomeMem Ty :=
  if some t ∈ h.view stack then some (.error (.recursiveType t), h)
  else
    let stack1 := (h.append grow stack t).1
    let h1 := (h.append grow stack t).2
    let u := g.underlying t
    match g.shape u with
    | .basic x =>
      if x.String ≠ "invalid type" then some (.ok (), h1)
      else some (.error (.unsupportedType u), h1)
    | .named => some (.ok (), h1)
    | .pointer elem => self h1 stack1 elem
    | .slice elem => self h1 stack1 elem
    | .array _ elem => self h1 stack1 elem
    | .map key elem =>
      if !stringKey g key then some (.error (.unsupportedMapKey key u), h1)
      else self h1 stack1 elem
    | .struct fields =>
      if fields.length = 0 then some (.ok (), h1)
      else fieldLoopMem (fun h2 c => self h2 stack1 c) h1 fields
    | .interface => some (.ok (), h1)
    | _ => some (.error (.unsupportedType u), h1)

/-- The recursion of `supportedType` on a slice and a heap, cut at depth
`fuel`. -/
def supportedTypeMem [DecidableEq Ty] (g : TypeGraph Ty) (grow : Nat → Nat) :
    Nat → Heap Ty → Slice → Ty → OutcomeMem Ty
  | 0, _, _, _ => none
  | fuel + 1, h, stack, t =>
    supportedTypeMemBody g grow (supportedTypeMem g grow fuel) h stack t

/-- What a call handed the slice `s` in the heap `h` leaves untouched in the
heap `h1` it returns: every allocated cell outside the backing array of `s`,
and the cells of that array below the length of `s`. -/
def Frame (h : Heap Ty) (s : Slice) (h1 : Heap Ty) : Prop :=
  h.next ≤ h1.next ∧
    ∀ a i, a < h.next → (a ≠ s.arr ∨ i < s.len) → h1.cell a i = h.cell a i

/-- The slice version `m` computes what the list version `p` computes, and
keeps to its frame, whenever the slice holds the list and spare capacity lies
in an allocated array. -/
def Refines (m : Heap Ty → Slice → Ty → OutcomeMem Ty)
    (p : List Ty → Ty → Outcome Ty) : Prop :=
  ∀ (h : Heap Ty) (s : Slice) (t : Ty) (stack : List Ty),
    (s.len < s.cap → s.arr < h.next) → h.view s = stack.map some →
    (m h s t).map Prod.fst = p stack t ∧
      ∀ r h1, m h s t = some (r, h1) → Frame h s h1

/-! Type graphs used as concrete inputs -/

/-- The type objects whose `Underlying()` is another type object. -/
def Shape.declared : Shape Ty → Bool
  | .named => true
  | .typeParam => true
  | .alias => true
  | _ => false

/-- What `go/types` guarantees of `Underlying()`: its result is never a
Named, TypeParam or Alias object, and every other type object is its own
underlying type. -/
def TypeGraph.resolved (g : TypeGraph Ty) : Prop :=
  ∀ t, (g.shape (g.underlying t)).declared = false ∧
    ((g.shape t).declared = false → g.underlying t = t)

/-- The graph of
`type S struct { F N; G M }; type N chan int; type M map[int]string`:
`0` is `S`, `1` its struct, `2` is `N`, `3` is `chan int`, `4` is `int`,
`5` is `M`, `6` is `map[int]string`, `7` is `string`. -/
def gNamedField : TypeGraph (Fin 8) where
  shape := fun i =>
    match i with
    | 0 => .named
    | 1 => .struct [⟨"F", 2, true⟩, ⟨"G", 5, true⟩]
    | 2 => .named
    | 3 => .chan 4
    | 4 => .basic (.typ .Int)
    | 5 => .named
    | 6 => .map 4 7
    | 7 => .basic (.typ .String)
  underlying := fun i =>
    match i with
    | 0 => 1
    | 2 => 3
    | 5 => 6
    | i => i

/-- The graph of `type A struct { B B }; type B struct { A *A }`:
`0` is `A`, `1` its struct, `2` is `B`, `3` its struct, `4` is `*A`. -/
def gCycle : TypeGraph (Fin 5) where
  shape := fun i =>
    match i with
    | 0 => .named
    | 1 => .struct [⟨"B", 2, true⟩]
    | 2 => .named
    | 3 => .struct [⟨"A", 4, true⟩]
    | 4 => .pointer 0
  underlying := fun i =>
    match i with
    | 0 => 1
    | 2 => 3
    | i => i

/-- The graph of `type A struct { C chan int; B B }; type B struct { A *A }`:
`0` is `A`, `1` its struct, `2` is `B`, `3` its struct, `4` is `*A`,
`5` is `chan int`, `6` is `int`. -/
def gCycleChan : TypeGraph (Fin 7) where
  shape := fun i =>
    match i with
    | 0 => .named
    | 1 => .struct [⟨"C", 5, true⟩, ⟨"B", 2, true⟩]
    | 2 => .named
    | 3 => .struct [⟨"A", 4, true⟩]
    | 4 => .pointer 0
    | 5 => .chan 6
    | 6 => .basic (.typ .Int)
  underlying := fun i =>
    match i with
    | 0 => 1
    | 2 => 3
    | i => i

/-- The graph of `type S struct { N int; Self *S }`:
`0` is `S`, `1` its struct, `2` is `int`, `3` is `*S`. -/
def gSelf : TypeGraph (Fin 4) where
  shape := fun i =>
    match i with
    | 0 => .named
    | 1 => .struct [⟨"N", 2, true⟩, ⟨"Self", 3, true⟩]
    | 2 => .basic (.typ .Int)
    | 3 => .pointer 0
  underlying := fun i =>
    match i with
    | 0 => 1
    | i => i

/-- The graph of `type S struct { X chan int; Self *S }`:
`0` is `S`, `1` its struct, `2` is `chan int`, `3` is `*S`, `4` is `int`. -/
def gSelfChan : TypeGraph (Fin 5) where
  shape := fun i =>
    match i with
    | 0 => .named
    | 1 => .struct [⟨"X", 2, true⟩, ⟨"Self", 3, true⟩]
    | 2 => .chan 4
    | 3 => .pointer 0
    | 4 => .basic (.typ .Int)
  underlying := fun i =>
    match i with
    | 0 => 1
    | i => i

/-- The graph of `chan int`: `0` is the channel type, `1` is `int`. -/
def gChan : TypeGraph (Fin 2) where
  shape := fun i =>
    match i with
    | 0 => .chan 1
    | 1 => .basic (.typ .Int)
  underlying := fun i => i

/-- A diamond: `type T struct { A *U; B []U }; type U struct { X, Y string }`:
`0` is `T`, `1` its struct, `2` is `*U`, `3` is `[]U`, `4` is `U`,
`5` its struct, `6` is `string`. -/
def gDiamond : TypeGraph (Fin 7) where
  shape := fun i =>
    match i with
    | 0 => .named
    | 1 => .struct [⟨"A", 2, true⟩, ⟨"B", 3, true⟩]
    | 2 => .pointer 4
    | 3 => .slice 4
    | 4 => .named
    | 5 => .struct [⟨"X", 6, true⟩, ⟨"Y", 6, true⟩]
    | 6 => .basic (.typ .String)
  underlying := fun i =>
    match i with
    | 0 => 1
    | 4 => 5
    | i => i

/-- The graph of `type M map[int]chan int`: `0` is `M`, `1` the map type,
`2` is `int`, `3` is `chan int`. -/
def gMapInt : TypeGraph (Fin 4) where
  shape := fun i =>
    match i with
    | 0 => .named
    | 1 => .map 2 3
    | 2 => .basic (.typ .Int)
    | 3 => .chan 2
  underlying := fun i =>
    match i with
    | 0 => 1
    | i => i

/-- The graph of `type K string; map[K][]string`: `0` is the map type,
`1` is `K`, `2` is `string`, `3` is `[]string`. -/
def gMapString : TypeGraph (Fin 4) where
  shape := fun i =>
    match i with
    | 0 => .map 1 3
    | 1 => .named
    | 2 => .basic (.typ .String)
    | 3 => .slice 2
  underlying := fun i =>
    match i with
    | 1 => 2
    | i => i

/-- The graph of `struct { A string; b chan int; C chan int; D map[int]string }`:
`0` is the struct, `1` is `string`, `2` is `chan int`, `3` the map type,
`4` is `int`. -/
def gFields : TypeGraph (Fin 5) where
  shape := fun i =>
    match i with
    | 0 => .struct [⟨"A", 1, true⟩, ⟨"b", 2, false⟩, ⟨"C", 2, true⟩, ⟨"D", 3, true⟩]
    | 1 => .basic (.typ .String)
    | 2 => .chan 4
    | 3 => .map 4 1
    | 4 => .basic (.typ .Int)
  underlying := fun i => i

/-- The graph of `type S struct { self *S; c chan int; bad T }` where the
type `T` failed to resolve: `0` is `S`, `1` its struct, `2` is `*S`,
`3` is `chan int`, `4` is the invalid type, `5` is `int`. -/
def gHidden : TypeGraph (Fin 6) where
  shape := fun i =>
    match i with
    | 0 => .named
    | 1 => .struct [⟨"self", 2, false⟩, ⟨"c", 3, false⟩, ⟨"bad", 4, false⟩]
    | 2 => .pointer 0
    | 3 => .chan 5
    | 4 => .basic (.typ .Invalid)
    | 5 => .basic (.typ .Int)
  underlying := fun i =>
    match i with
    | 0 => 1
    | i => i

/-- The `String()` of the type objects of `gNamedField`. -/
def gNamedFieldString : Fin 8 → String := fun i =>
  match i with
  | 0 => "example.S"
  | 1 => "struct{F example.N; G example.M}"
  | 2 => "example.N"
  | 3 => "chan int"
  | 4 => "int"
  | 5 => "example.M"
  | 6 => "map[int]string"
  | 7 => "string"

/-! The variant without the zero-field check -/

/-- The body of `supportedType` with the test `x.NumFields() == 0` of the
struct case removed: a struct without fields goes through the field loop. -/
def supportedTypeBodyUnified [DecidableEq Ty] (g : TypeGraph Ty)
    (self : List Ty → Ty → Outcome Ty) (stack : List Ty) (t : Ty) : Outcome Ty :=
  if t ∈ stack then some (.error (.recursiveType t))
  else
    let stack1 := stack ++ [t]
    let u := g.underlying t
    match g.shape u with
    | .basic x =>
      if x.String ≠ "invalid type" then some (.ok ())
      else some (.error (.unsupportedType u))
    | .named => some (.ok ())
    | .pointer elem => self stack1 elem
    | .slice elem => self stack1 elem
    | .array _ elem => self stack1 elem
    | .map key elem =>
      if !stringKey g key then some (.error (.unsupportedMapKey key u))
      else self stack1 elem
    | .struct fields => fieldLoop (self stack1) fields
    | .interface => some (.ok ())
    | _ => some (.error (.unsupportedType u))

/-- The recursion of the variant without the zero-field check, cut at depth
`fuel`. -/
def supportedTypeUnifiedFuel [DecidableEq Ty] (g : TypeGraph Ty) :
    Nat → List Ty → Ty → Outcome Ty
  | 0, _, _ => none
  | fuel + 1, stack, t => supportedTypeBodyUnified g (supportedTypeUnifiedFuel g fuel) stack t

/-! The calls of one classification -/

/-- The calls made, in the order they are entered: the stack and the type of
each. -/
abbrev CallLog (Ty : Type) := List (List Ty × Ty)

/-- The result of a call together with the calls made below it. -/
abbrev OutcomeLog (Ty : Type) := Option (Except (Err Ty) Unit × CallLog Ty)

/-- The field loop of the struct case, collecting the calls made. -/
def fieldLoopLog (f : Ty → OutcomeLog Ty) : List (Field Ty) → OutcomeLog Ty
  | [] => some (.ok (), [])
  | fld :: rest =>
    if fld.exported then
      match f fld.typ with
      | none => none
      | some (.error e, l) => some (.error e, l)
      | some (.ok _, l) =>
        match fieldLoopLog f rest with
        | none => none
        | some (r, l1) => some (r, l ++ l1)
    else fieldLoopLog f rest

/-- The body of `supportedType`, collecting the calls that `self` reports. -/
def supportedTypeBodyLog [DecidableEq Ty] (g : TypeGraph Ty)
    (self : List Ty → Ty → OutcomeLog Ty) (stack : List Ty) (t : Ty) : OutcomeLog Ty :=
  if t ∈ stack then some (.error (.recursiveType t), [])
  else
    let stack1 := stack ++ [t]
    let u := g.underlying t
    match g.shape u with
    | .basic x =>
      if x.String ≠ "invalid type" then some (.ok (), [])
      else some (.error (.unsupportedType u), [])
    | .named => some (.ok (), [])
    | .pointer elem => self stack1 elem
    | .slice elem => self stack1 elem
    | .array _ elem => self stack1 elem
    | .map key elem =>
      if !stringKey g key then some (.error (.unsupportedMapKey key u), [])
      else self stack1 elem
    | .struct fields =>
      if fields.length = 0 then some (.ok (), [])
      else fieldLoopLog (self stack1) fields
    | .interface => some (.ok (), [])
    | _ => some (.error (.unsupportedType u), [])

/-- The recursion of `supportedType` cut at depth `fuel`, with the log of the
calls: the call itself first, then the calls it gives rise to. -/
def supportedTypeLog [DecidableEq Ty] (g : TypeGraph Ty) :
    Nat → List Ty → Ty → OutcomeLog Ty
  | 0, _, _ => none
  | fuel + 1, stack, t =>
    match supportedTypeBodyLog g (supportedTypeLog g fuel) stack t with
    | none => none
    | some (r, l) => some (r, (stack, t) :: l)

/-- The graph of `type E struct{}; type W struct { A E; B E; C *E }`:
`0` is `W`, `1` its struct, `2` is `E`, `3` is `*E`, `4` is `struct{}`. -/
def gEmpty : TypeGraph (Fin 5) where
  shape := fun i =>
    match i with
    | 0 => .named
    | 1 => .struct [⟨"A", 2, true⟩, ⟨"B", 2, true⟩, ⟨"C", 3, true⟩]
    | 2 => .named
    | 3 => .pointer 2
    | 4 => .struct []
  underlying := fun i =>
    match i with
    | 0 => 1
    | 2 => 4
    | i => i

/-! The declaration index: `getTypeInfo` -/

/-- The dynamic type of a syntax node: `*goast.StructType`, or any of the
other node types. -/
inductive NodeKind
  | structType
  | other
  deriving DecidableEq

/-- A syntax node: its identity (the pointer), its dynamic type, and the
children that `goast.Walk` visits, in its order. -/
inductive Node
  | mk (id : Nat) (kind : NodeKind) (children : List Node)

/-- The dynamic type of a node. -/
def Node.kind : Node → NodeKind
  | .mk _ k _ => k

/-- What `getTypeInfo` reads of a `*packages.Package`: the files `p.Syntax`
and the method `p.TypesInfo.TypeOf`, whose result can be nil (`none`). -/
structure Package (Ty : Type) where
  Syntax : List Node
  TypeOf : Node → Option Ty

/-- The map type `typeInfo`, `map[gotypes.Type]*goast.StructType`: the value
stored under each key, `none` for a key without an entry. The nil `Type` is
the key `none`. -/
abbrev typeInfo (Ty : Type) := Option Ty → Option Node

mutual
/-- The traversal `goast.Inspect(node, f)`, the state of the closure `f`
passed along: `f` is called on the node, then, if it returned true, the
children are inspected in order and `f` is called on nil. -/
def Inspect {σ : Type} (f : Option Node → σ → σ × Bool) : Node → σ → σ
  | .mk id k cs, s =>
    let r := f (some (.mk id k cs)) s
    if r.2 then (f none (InspectList f cs r.1)).1 else r.1
/-- The traversal of the children of a node. -/
def InspectList {σ : Type} (f : Option Node → σ → σ × Bool) : List Node → σ → σ
  | [], s => s
  | c :: cs, s => InspectList f cs (Inspect f c s)
end

/-- The closure that `getTypeInfo` hands to `goast.Inspect`: a struct type
node is recorded under the type `p.TypesInfo.TypeOf` gives for it, and the
traversal goes on in every case. -/
def recordStructType [DecidableEq Ty] (p : Package Ty) (n : Option Node) (m : typeInfo Ty) :
    typeInfo Ty × Bool :=
  match n with
  | some (.mk id .structType cs) =>
    (Function.update m (p.TypeOf (.mk id .structType cs)) (some (.mk id .structType cs)), true)
  | _ => (m, true)

/-- The function `getTypeInfo`: every file of `p.Syntax` is inspected, in
order, into one map that starts empty. -/
def getTypeInfo [DecidableEq Ty] (p : Package Ty) : typeInfo Ty :=
  p.Syntax.foldl (fun m f => Inspect (recordStructType p) f m) (fun _ => none)

mutual
/-- The syntax nodes of a tree, the root first. -/
def Node.nodes : Node → List Node
  | .mk id k cs => .mk id k cs :: nodesList cs
/-- The syntax nodes of a list of trees. -/
def nodesList : List Node → List Node
  | [] => []
  | c :: cs => c.nodes ++ nodesList cs
end

/-- The struct type nodes that occur anywhere in the syntax trees of a
package. -/
def Package.structNodes (p : Package Ty) : List Node :=
  (nodesList p.Syntax).filter (fun n => n.kind = .structType)

/-- The syntax of
`type Outer struct { In struct { X int } }; var v = 1`, in one file: `0` is the
file, `1` and `6` the declarations, `2` the struct type of `Outer`, `3` its
field, `4` the nested anonymous struct type, `5` and `7` other nodes. -/
def fileOuter : Node :=
  .mk 0 .other
    [.mk 1 .other [.mk 2 .structType [.mk 3 .other [.mk 4 .structType [.mk 5 .other []]]]],
      .mk 6 .other [.mk 7 .other []]]

/-- The package of `fileOuter`: the type `0` is resolved for the struct type
of `Outer`, the type `1` for the nested struct type. -/
def pkgOuter : Package (Fin 3) where
  Syntax := [fileOuter]
  TypeOf := fun n =>
    match n with
    | .mk 2 _ _ => some 0
    | .mk 4 _ _ => some 1
    | _ => none

/-- The graph of
`type A struct { N int; B B; C chan int }; type B struct { A *A }`:
`0` is `A`, `1` its struct, `2` is `B`, `3` its struct, `4` is `*A`,
`5` is `chan int`, `6` is `int`. -/
def gCycleFirst : TypeGraph (Fin 7) where
  shape := fun i =>
    match i with
    | 0 => .named
    | 1 => .struct [⟨"N", 6, true⟩, ⟨"B", 2, true⟩, ⟨"C", 5, true⟩]
    | 2 => .named
    | 3 => .struct [⟨"A", 4, true⟩]
    | 4 => .pointer 0
    | 5 => .chan 6
    | 6 => .basic (.typ .Int)
  underlying := fun i =>
    match i with
    | 0 => 1
    | 2 => 3
    | i => i

/-! The recursion returns -/

theorem unvisited_append_lt [DecidableEq Ty] [Fintype Ty] {stack : List Ty} {t : Ty}
    (h : t ∉ stack) : unvisited (stack ++ [t]) < unvisited stack := by
  unfold unvisited
  apply Finset.card_lt_card
  rw [Finset.ssubset_iff_of_subset]
  · exact ⟨t, by simp [h], by simp⟩
  · intro x hx
    simp only [Finset.mem_filter, Finset.mem_univ, true_and, List.mem_append,
      List.mem_singleton, not_or] at hx ⊢
    exact hx.1

theorem unvisited_le_card [DecidableEq Ty] [Fintype Ty] (stack : List Ty) :
    unvisited stack ≤ Fintype.card Ty := by
  unfold unvisited
  exact Finset.card_le_univ _

theorem fieldLoop_isSome {f : Ty → Outcome Ty} :
    ∀ fs : List (Field Ty), (∀ fld ∈ fs, fld.exported = true → (f fld.typ).isSome) →
      (fieldLoop f fs).isSome
  | [], _ => by simp [fieldLoop]
  | fld :: rest, h => by
    unfold fieldLoop
    have ih := fieldLoop_isSome rest (fun x hx => h x (List.mem_cons_of_mem _ hx))
    split
    · rename_i hex
      have hx := h fld (List.mem_cons_self _ _) hex
      split
      · rename_i hn
        simp [hn] at hx
      · rfl
      · exact ih
    · exact ih

theorem fieldLoop_mono {f f' : Ty → Outcome Ty} :
    ∀ (fs : List (Field Ty)) (r : Except (Err Ty) Unit),
      (∀ fld ∈ fs, fld.exported = true → ∀ r, f fld.typ = some r → f' fld.typ = some r) →
      fieldLoop f fs = some r → fieldLoop f' fs = some r
  | [], r, _, hr => by simpa [fieldLoop] using hr
  | fld :: rest, r, h, hr => by
    unfold fieldLoop at hr ⊢
    have ih := fieldLoop_mono rest r (fun x hx => h x (List.mem_cons_of_mem _ hx))
    split at hr
    · rename_i hex
      have hx := h fld (List.mem_cons_self _ _) hex
      rw [if_pos hex]
      split at hr
      · exact absurd hr (by simp)
      · rename_i e he
        rw [hx _ he]
        exact hr
      · rename_i v he
        rw [hx _ he]
        exact ih hr
    · rename_i hex
      rw [if_neg hex]
      exact ih hr

theorem fieldLoop_congr {f f' : Ty → Outcome Ty} :
    ∀ (fs : List (Field Ty)),
      (∀ fld ∈ fs, fld.exported = true → f fld.typ = f' fld.typ) →
      fieldLoop f fs = fieldLoop f' fs
  | [], _ => rfl
  | fld :: rest, h => by
    unfold fieldLoop
    rw [fieldLoop_congr rest (fun x hx => h x (List.mem_cons_of_mem _ hx))]
    by_cases hex : fld.exported = true
    · rw [if_pos hex, if_pos hex, h fld (List.mem_cons_self _ _) hex]
    · rw [if_neg hex, if_neg hex]

theorem mem_children_of_field {g : TypeGraph Ty} {t : Ty} {fields : List (Field Ty)}
    (hs : g.shape (g.underlying t) = .struct fields) {fld : Field Ty}
    (hmem : fld ∈ fields) (hex : fld.exported = true) : fld.typ ∈ children g t := by
  unfold children
  rw [hs]
  exact List.mem_map.mpr ⟨fld, List.mem_filter.mpr ⟨hmem, by simpa using hex⟩, rfl⟩

theorem supportedTypeBody_congr [DecidableEq Ty] (g : TypeGraph Ty)
    {self self' : List Ty → Ty → Outcome Ty} {stack : List Ty} {t : Ty}
    (h : t ∉ stack → ∀ c ∈ children g t, self (stack ++ [t]) c = self' (stack ++ [t]) c) :
    supportedTypeBody g self stack t = supportedTypeBody g self' stack t := by
  unfold supportedTypeBody
  by_cases hmem : t ∈ stack
  · simp [hmem]
  · have hc := h hmem
    simp only [hmem, if_false]
    cases hs : g.shape (g.underlying t) with
    | pointer e =>
      simp only [children, hs] at hc
      exact hc e (by simp)
    | slice e =>
      simp only [children, hs] at hc
      exact hc e (by simp)
    | array n e =>
      simp only [children, hs] at hc
      exact hc e (by simp)
    | map k e =>
      simp only [children, hs] at hc
      simp only [hc e (by simp)]
    | struct fields =>
      simp only [children, hs] at hc
      simp only []
      rw [fieldLoop_congr fields]
      intro fld hf hex
      exact hc _ (List.mem_map.mpr ⟨fld, List.mem_filter.mpr ⟨hf, by simpa using hex⟩, rfl⟩)
    | _ => rfl

theorem supportedTypeBody_isSome [DecidableEq Ty] (g : TypeGraph Ty)
    {self : List Ty → Ty → Outcome Ty} {stack : List Ty} {t : Ty}
    (h : t ∉ stack → ∀ c ∈ children g t, (self (stack ++ [t]) c).isSome) :
    (supportedTypeBody g self stack t).isSome := by
  unfold supportedTypeBody
  by_cases hmem : t ∈ stack
  · simp [hmem]
  · have hc := h hmem
    simp only [hmem, if_false]
    cases hs : g.shape (g.underlying t) with
    | basic b =>
      simp only []
      split <;> rfl
    | pointer e =>
      simp only [children, hs] at hc
      exact hc e (by simp)
    | slice e =>
      simp only [children, hs] at hc
      exact hc e (by simp)
    | array n e =>
      simp only [children, hs] at hc
      exact hc e (by simp)
    | map k e =>
      simp only [children, hs] at hc
      simp only []
      split
      · rfl
      · exact hc e (by simp)
    | struct fields =>
      simp only [children, hs] at hc
      simp only []
      split
      · rfl
      · apply fieldLoop_isSome
        intro fld hf hex
        exact hc _ (List.mem_map.mpr ⟨fld, List.mem_filter.mpr ⟨hf, by simpa using hex⟩, rfl⟩)
    | _ => rfl

theorem supportedTypeBody_mono [DecidableEq Ty] (g : TypeGraph Ty)
    {self self' : List Ty → Ty → Outcome Ty} {stack : List Ty} {t : Ty}
    {r : Except (Err Ty) Unit}
    (h : t ∉ stack → ∀ c ∈ children g t, ∀ r,
      self (stack ++ [t]) c = some r → self' (stack ++ [t]) c = some r)
    (hr : supportedTypeBody g self stack t = some r) :
    supportedTypeBody g self' stack t = some r := by
  unfold supportedTypeBody at hr ⊢
  by_cases hmem : t ∈ stack
  · simpa [hmem] using hr
  · have hc := h hmem
    simp only [hmem, if_false] at hr ⊢
    cases hs : g.shape (g.underlying t) with
    | pointer e =>
      simp only [children, hs] at hc hr
      exact hc e (by simp) _ hr
    | slice e =>
      simp only [children, hs] at hc hr
      exact hc e (by simp) _ hr
    | array n e =>
      simp only [children, hs] at hc hr
      exact hc e (by simp) _ hr
    | map k e =>
      simp only [children, hs] at hc hr
      simp only []
      split at hr
      · rename_i hk
        rw [if_pos hk]
        exact hr
      · rename_i hk
        rw [if_neg hk]
        exact hc e (by simp) _ hr
    | struct fields =>
      simp only [children, hs] at hc hr
      simp only []
      split at hr
      · rename_i hk
        rw [if_pos hk]
        exact hr
      · rename_i hk
        rw [if_neg hk]
        refine fieldLoop_mono fields r ?_ hr
        intro fld hf hex
        exact hc _ (List.mem_map.mpr ⟨fld, List.mem_filter.mpr ⟨hf, by simpa using hex⟩, rfl⟩)
    | _ =>
      simp only [hs] at hr
      exact hr

theorem supportedTypeFuel_isSome [DecidableEq Ty] [Fintype Ty] (g : TypeGraph Ty) :
    ∀ (fuel : Nat) (stack : List Ty) (t : Ty),
      unvisited stack < fuel → (supportedTypeFuel g fuel stack t).isSome
  | 0, _, _, h => absurd h (Nat.not_lt_zero _)
  | fuel + 1, stack, t, h => by
    unfold supportedTypeFuel
    apply supportedTypeBody_isSome
    intro hmem c _
    exact supportedTypeFuel_isSome g fuel (stack ++ [t]) c
      (lt_of_lt_of_le (unvisited_append_lt hmem) (Nat.lt_succ_iff.mp h))

theorem supportedTypeFuel_succ [DecidableEq Ty] (g : TypeGraph Ty) :
    ∀ (fuel : Nat) (stack : List Ty) (t : Ty) (r : Except (Err Ty) Unit),
      supportedTypeFuel g fuel stack t = some r →
      supportedTypeFuel g (fuel + 1) stack t = some r
  | 0, _, _, _, h => by simp [supportedTypeFuel] at h
  | fuel + 1, stack, t, r, h => by
    rw [supportedTypeFuel] at h ⊢
    exact supportedTypeBody_mono g
      (fun _ c _ r hc => supportedTypeFuel_succ g fuel (stack ++ [t]) c r hc) h

theorem supportedTypeFuel_le [DecidableEq Ty] (g : TypeGraph Ty) {fuel fuel' : Nat}
    (hle : fuel ≤ fuel') {stack : List Ty} {t : Ty} {r : Except (Err Ty) Unit}
    (h : supportedTypeFuel g fuel stack t = some r) :
    supportedTypeFuel g fuel' stack t = some r := by
  induction hle with
  | refl => exact h
  | step _ ih => exact supportedTypeFuel_succ g _ _ _ _ ih

/-- The classifier `supportedType(stack, t)`: the value the recursion returns,
which it does within a depth of the number of types of the graph plus one. -/
def supportedType [DecidableEq Ty] [Fintype Ty] (g : TypeGraph Ty) (stack : List Ty)
    (t : Ty) : Except (Err Ty) Unit :=
  (supportedTypeFuel g (Fintype.card Ty + 1) stack t).get
    (supportedTypeFuel_isSome g _ stack t (Nat.lt_succ_of_le (unvisited_le_card stack)))

/-- One link of a chain that the classifier gets to follow: in the call for
`x` with the stack `stack`, the call for the component `y` is reached and its
failure, if it fails, is the failure returned. That is so when `y` is the
element of a pointer, slice or array, the value type of a map whose key is a
string, or the type of an exported field such that the exported fields
declared before it are supported under the stack extended with `x`. -/
inductive Link [DecidableEq Ty] [Fintype Ty] (g : TypeGraph Ty) (stack : List Ty) (x : Ty) :
    Ty → Prop
  | pointer {e : Ty} : g.shape (g.underlying x) = .pointer e → Link g stack x e
  | slice {e : Ty} : g.shape (g.underlying x) = .slice e → Link g stack x e
  | array {n : Int} {e : Ty} : g.shape (g.underlying x) = .array n e → Link g stack x e
  | map {k e : Ty} : g.shape (g.underlying x) = .map k e → stringKey g k = true →
      Link g stack x e
  | field {pre post : List (Field Ty)} {fld : Field Ty} :
      g.shape (g.underlying x) = .struct (pre ++ fld :: post) → fld.exported = true →
      (∀ f ∈ pre, f.exported = true → supportedType g (stack ++ [x]) f.typ = .ok ()) →
      Link g stack x fld.typ

/-- A chain `x`, `rest`, `target` that the classifier gets to follow from the
call for `x` with the stack `stack`: every type of the chain is linked to the
next under the stack grown by the types before it. -/
def Chain [DecidableEq Ty] [Fintype Ty] (g : TypeGraph Ty) :
    List Ty → Ty → List Ty → Ty → Prop
  | stack, x, [], target => Link g stack x target
  | stack, x, y :: rest, target => Link g stack x y ∧ Chain g (stack ++ [x]) y rest target

/-! The equations of `supportedType` -/

theorem supportedType_of_fuel [DecidableEq Ty] [Fintype Ty] (g : TypeGraph Ty)
    {fuel : Nat} {stack : List Ty} {t : Ty} {r : Except (Err Ty) Unit}
    (h : supportedTypeFuel g fuel stack t = some r) : supportedType g stack t = r := by
  have h1 : supportedTypeFuel g (Fintype.card Ty + 1) stack t
      = some (supportedType g stack t) := by simp [supportedType]
  have h2 := supportedTypeFuel_le g (Nat.le_max_left fuel (Fintype.card Ty + 1)) h
  have h3 := supportedTypeFuel_le g (Nat.le_max_right fuel (Fintype.card Ty + 1)) h1
  rw [h2] at h3
  exact (Option.some.inj h3).symm

theorem supportedTypeFuel_eq [DecidableEq Ty] [Fintype Ty] (g : TypeGraph Ty)
    {fuel : Nat} {stack : List Ty} {t : Ty} (h : unvisited stack < fuel) :
    supportedTypeFuel g fuel stack t = some (supportedType g stack t) := by
  have hs := supportedTypeFuel_isSome g fuel stack t h
  obtain ⟨r, hr⟩ := Option.isSome_iff_exists.mp hs
  rw [hr, supportedType_of_fuel g hr]

theorem supportedType_fix [DecidableEq Ty] [Fintype Ty] (g : TypeGraph Ty)
    (stack : List Ty) (t : Ty) :
    supportedTypeBody g (fun s c => some (supportedType g s c)) stack t
      = some (supportedType g stack t) := by
  have h : supportedTypeFuel g (unvisited stack + 1) stack t
      = some (supportedType g stack t) :=
    supportedTypeFuel_eq g (Nat.lt_succ_self _)
  rw [supportedTypeFuel] at h
  rw [← h]
  apply supportedTypeBody_congr
  intro hmem c _
  exact (supportedTypeFuel_eq g (unvisited_append_lt hmem)).symm

theorem fieldLoop_pure (f : Ty → Except (Err Ty) Unit) :
    ∀ fs : List (Field Ty), fieldLoop (fun c => some (f c)) fs = some (firstFailure f fs)
  | [] => rfl
  | fld :: rest => by
    have ih := fieldLoop_pure f rest
    unfold fieldLoop
    unfold firstFailure at ih ⊢
    rw [List.find?_cons]
    by_cases hex : fld.exported = true
    · rw [if_pos hex]
      cases hf : f fld.typ with
      | error e => simp [hex, hf, Except.toBool]
      | ok u => simpa [hex, hf, Except.toBool] using ih
    · rw [if_neg hex]
      simpa [hex] using ih

theorem supportedType_mem [DecidableEq Ty] [Fintype Ty] (g : TypeGraph Ty)
    {stack : List Ty} {t : Ty} (hmem : t ∈ stack) :
    supportedType g stack t = .error (.recursiveType t) := by
  have h := supportedType_fix g stack t
  simp only [supportedTypeBody, hmem, if_true] at h
  exact (Option.some.inj h).symm

theorem supportedType_basic [DecidableEq Ty] [Fintype Ty] (g : TypeGraph Ty)
    {stack : List Ty} {t : Ty} {b : Basic} (hmem : t ∉ stack)
    (hs : g.shape (g.underlying t) = .basic b) :
    supportedType g stack t =
      if b.String ≠ "invalid type" then .ok ()
      else .error (.unsupportedType (g.underlying t)) := by
  have h := supportedType_fix g stack t
  simp only [supportedTypeBody, hmem, if_false, hs] at h
  split at h <;> rename_i hb
  · rw [if_pos hb]
    exact (Option.some.inj h).symm
  · rw [if_neg hb]
    exact (Option.some.inj h).symm

theorem supportedType_named [DecidableEq Ty] [Fintype Ty] (g : TypeGraph Ty)
    {stack : List Ty} {t : Ty} (hmem : t ∉ stack)
    (hs : g.shape (g.underlying t) = .named) :
    supportedType g stack t = .ok () := by
  have h := supportedType_fix g stack t
  simp only [supportedTypeBody, hmem, if_false, hs] at h
  exact (Option.some.inj h).symm

theorem supportedType_interface [DecidableEq Ty] [Fintype Ty] (g : TypeGraph Ty)
    {stack : List Ty} {t : Ty} (hmem : t ∉ stack)
    (hs : g.shape (g.underlying t) = .interface) :
    supportedType g stack t = .ok () := by
  have h := supportedType_fix g stack t
  simp only [supportedTypeBody, hmem, if_false, hs] at h
  exact (Option.some.inj h).symm

theorem supportedType_pointer [DecidableEq Ty] [Fintype Ty] (g : TypeGraph Ty)
    {stack : List Ty} {t e : Ty} (hmem : t ∉ stack)
    (hs : g.shape (g.underlying t) = .pointer e) :
    supportedType g stack t = supportedType g (stack ++ [t]) e := by
  have h := supportedType_fix g stack t
  simp only [supportedTypeBody, hmem, if_false, hs] at h
  exact (Option.some.inj h).symm

theorem supportedType_slice [DecidableEq Ty] [Fintype Ty] (g : TypeGraph Ty)
    {stack : List Ty} {t e : Ty} (hmem : t ∉ stack)
    (hs : g.shape (g.underlying t) = .slice e) :
    supportedType g stack t = supportedType g (stack ++ [t]) e := by
  have h := supportedType_fix g stack t
  simp only [supportedTypeBody, hmem, if_false, hs] at h
  exact (Option.some.inj h).symm

theorem supportedType_array [DecidableEq Ty] [Fintype Ty] (g : TypeGraph Ty)
    {stack : List Ty} {t e : Ty} {n : Int} (hmem : t ∉ stack)
    (hs : g.shape (g.underlying t) = .array n e) :
    supportedType g stack t = supportedType g (stack ++ [t]) e := by
  have h := supportedType_fix g stack t
  simp only [supportedTypeBody, hmem, if_false, hs] at h
  exact (Option.some.inj h).symm

theorem supportedType_map [DecidableEq Ty] [Fintype Ty] (g : TypeGraph Ty)
    {stack : List Ty} {t k e : Ty} (hmem : t ∉ stack)
    (hs : g.shape (g.underlying t) = .map k e) :
    supportedType g stack t =
      if stringKey g k = true then supportedType g (stack ++ [t]) e
      else .error (.unsupportedMapKey k (g.underlying t)) := by
  have h := supportedType_fix g stack t
  simp only [supportedTypeBody, hmem, if_false, hs] at h
  by_cases hk : stringKey g k = true
  · rw [if_pos hk]
    simp only [hk, Bool.not_true, Bool.false_eq_true, if_false] at h
    exact (Option.some.inj h).symm
  · rw [if_neg hk]
    have hk' : stringKey g k = false := by simpa using hk
    simp only [hk', Bool.not_false, if_true] at h
    exact (Option.some.inj h).symm

theorem supportedType_struct [DecidableEq Ty] [Fintype Ty] (g : TypeGraph Ty)
    {stack : List Ty} {t : Ty} {fields : List (Field Ty)} (hmem : t ∉ stack)
    (hs : g.shape (g.underlying t) = .struct fields) :
    supportedType g stack t = firstFailure (supportedType g (stack ++ [t])) fields := by
  have h := supportedType_fix g stack t
  simp only [supportedTypeBody, hmem, if_false, hs] at h
  split at h
  · rename_i h0
    have hnil : fields = [] := List.length_eq_zero.mp h0
    subst hnil
    exact (Option.some.inj h).symm
  · rw [fieldLoop_pure] at h
    exact (Option.some.inj h).symm

theorem supportedType_unhandled [DecidableEq Ty] [Fintype Ty] (g : TypeGraph Ty)
    {stack : List Ty} {t : Ty} (hmem : t ∉ stack)
    (hs : (g.shape (g.underlying t)).unhandled = true) :
    supportedType g stack t = .error (.unsupportedType (g.underlying t)) := by
  have h := supportedType_fix g stack t
  simp only [supportedTypeBody, hmem, if_false] at h
  cases hsh : g.shape (g.underlying t) <;> simp only [hsh, Shape.unhandled] at hs h <;>
    first
    | exact (Option.some.inj h).symm
    | exact absurd hs (by simp)

theorem firstFailure_ok_iff (f : Ty → Except (Err Ty) Unit) (fs : List (Field Ty)) :
    firstFailure f fs = .ok () ↔ ∀ fld ∈ fs, fld.exported = true → f fld.typ = .ok () := by
  unfold firstFailure
  constructor
  · intro h fld hf hex
    cases hfind : fs.find? (fun fld => fld.exported && !(f fld.typ).toBool) with
    | none =>
      have := List.find?_eq_none.mp hfind fld hf
      cases hr : f fld.typ with
      | ok u => rfl
      | error e => simp [hex, hr, Except.toBool] at this
    | some x =>
      rw [hfind] at h
      have hx := List.find?_some hfind
      simp only [] at h
      simp [h, Except.toBool] at hx
  · intro h
    cases hfind : fs.find? (fun fld => fld.exported && !(f fld.typ).toBool) with
    | none => rfl
    | some x =>
      have hx := List.find?_some hfind
      have hm := List.mem_of_find?_eq_some hfind
      simp only [Bool.and_eq_true, Bool.not_eq_true'] at hx
      have := h x hm hx.1
      simp [this, Except.toBool] at hx

theorem firstFailure_error {f : Ty → Except (Err Ty) Unit} {fs : List (Field Ty)}
    {e : Err Ty} (h : firstFailure f fs = .error e) :
    ∃ fld ∈ fs, fld.exported = true ∧ f fld.typ = .error e := by
  unfold firstFailure at h
  cases hfind : fs.find? (fun fld => fld.exported && !(f fld.typ).toBool) with
  | none => simp [hfind] at h
  | some x =>
    rw [hfind] at h
    have hx := List.find?_some hfind
    simp only [Bool.and_eq_true, Bool.not_eq_true'] at hx
    exact ⟨x, List.mem_of_find?_eq_some hfind, hx.1, h⟩

theorem firstFailure_congr {f f' : Ty → Except (Err Ty) Unit} :
    ∀ fs : List (Field Ty),
      (∀ fld ∈ fs, fld.exported = true → f fld.typ = f' fld.typ) →
      firstFailure f fs = firstFailure f' fs := by
  intro fs h
  have h1 := fieldLoop_pure f fs
  have h2 := fieldLoop_pure f' fs
  have h3 : fieldLoop (fun c => some (f c)) fs = fieldLoop (fun c => some (f' c)) fs :=
    fieldLoop_congr fs (fun fld hf hex => by simp only [h fld hf hex])
  rw [h3] at h1
  rw [h1] at h2
  exact Option.some.inj h2

theorem supportedType_ok_iff [DecidableEq Ty] [Fintype Ty] (g : TypeGraph Ty)
    {stack : List Ty} {t : Ty} (hmem : t ∉ stack) :
    supportedType g stack t = .ok () ↔
      accepted g t = true ∧ ∀ c ∈ children g t, supportedType g (stack ++ [t]) c = .ok () := by
  cases hs : g.shape (g.underlying t) with
  | basic b =>
    rw [supportedType_basic g hmem hs]
    simp only [accepted, children, hs]
    by_cases hb : b.String ≠ "invalid type" <;> simp [hb]
  | named => simp [supportedType_named g hmem hs, accepted, children, hs]
  | interface => simp [supportedType_interface g hmem hs, accepted, children, hs]
  | pointer e => simp [supportedType_pointer g hmem hs, accepted, children, hs]
  | slice e => simp [supportedType_slice g hmem hs, accepted, children, hs]
  | array n e => simp [supportedType_array g hmem hs, accepted, children, hs]
  | map k e =>
    rw [supportedType_map g hmem hs]
    simp only [accepted, children, hs]
    by_cases hk : stringKey g k = true <;> simp [hk]
  | struct fields =>
    rw [supportedType_struct g hmem hs, firstFailure_ok_iff]
    simp only [accepted, children, hs, true_and, List.mem_map, List.mem_filter]
    constructor
    · rintro h c ⟨fld, ⟨hf, hex⟩, rfl⟩
      exact h fld hf hex
    · intro h fld hf hex
      exact h _ ⟨fld, ⟨hf, hex⟩, rfl⟩
  | _ =>
    rw [supportedType_unhandled g hmem (by rw [hs]; rfl)]
    simp [accepted, hs]

theorem supportedType_error_cases [DecidableEq Ty] [Fintype Ty] (g : TypeGraph Ty)
    {stack : List Ty} {t : Ty} {e : Err Ty} (hmem : t ∉ stack)
    (h : supportedType g stack t = .error e) :
    (accepted g t = false ∧ (e = .unsupportedType (g.underlying t) ∨
        ∃ k, e = .unsupportedMapKey k (g.underlying t))) ∨
      ∃ c ∈ children g t, supportedType g (stack ++ [t]) c = .error e := by
  cases hs : g.shape (g.underlying t) with
  | basic b =>
    rw [supportedType_basic g hmem hs] at h
    left
    by_cases hb : b.String ≠ "invalid type"
    · simp [hb] at h
    · simp only [hb, if_false, Except.error.injEq] at h
      exact ⟨by simp [accepted, hs, hb], Or.inl h.symm⟩
  | named => simp [supportedType_named g hmem hs] at h
  | interface => simp [supportedType_interface g hmem hs] at h
  | pointer c =>
    rw [supportedType_pointer g hmem hs] at h
    exact Or.inr ⟨c, by simp [children, hs], h⟩
  | slice c =>
    rw [supportedType_slice g hmem hs] at h
    exact Or.inr ⟨c, by simp [children, hs], h⟩
  | array n c =>
    rw [supportedType_array g hmem hs] at h
    exact Or.inr ⟨c, by simp [children, hs], h⟩
  | map k c =>
    rw [supportedType_map g hmem hs] at h
    by_cases hk : stringKey g k = true
    · rw [if_pos hk] at h
      exact Or.inr ⟨c, by simp [children, hs], h⟩
    · rw [if_neg hk] at h
      simp only [Except.error.injEq] at h
      exact Or.inl ⟨by simpa [accepted, hs] using hk, Or.inr ⟨k, h.symm⟩⟩
  | struct fields =>
    rw [supportedType_struct g hmem hs] at h
    obtain ⟨fld, hf, hex, hfe⟩ := firstFailure_error h
    exact Or.inr ⟨fld.typ, mem_children_of_field hs hf hex, hfe⟩
  | _ =>
    rw [supportedType_unhandled g hmem (by rw [hs]; rfl)] at h
    simp only [Except.error.injEq] at h
    exact Or.inl ⟨by simp [accepted, hs], Or.inl h.symm⟩

/-- Induction along the recursion of `supportedType`: a property of a call
follows from the property of the calls it makes. -/
theorem supportedType_induct [DecidableEq Ty] [Fintype Ty] (g : TypeGraph Ty)
    (P : List Ty → Ty → Prop)
    (step : ∀ stack t, (t ∉ stack → ∀ c ∈ children g t, P (stack ++ [t]) c) → P stack t) :
    ∀ stack t, P stack t := by
  have key : ∀ n stack, unvisited stack = n → ∀ t, P stack t := by
    intro n
    induction n using Nat.strong_induction_on with
    | _ n ih =>
      intro stack hn t
      apply step
      intro hmem c _
      exact ih _ (hn ▸ unvisited_append_lt hmem) (stack ++ [t]) rfl c
  exact fun stack t => key _ stack rfl t

/-! The classifier and the type graph -/

theorem Reach.child {g : TypeGraph Ty} {t c x : Ty} (hc : c ∈ children g t)
    (h : Reach g c x) : Reach g t x :=
  Relation.ReflTransGen.head hc h

theorem Reach1.of_child {g : TypeGraph Ty} {t c x : Ty} (hc : c ∈ children g t)
    (h : Reach g c x) : Reach1 g t x :=
  Relation.TransGen.head' hc h

theorem supportedType_step_congr [DecidableEq Ty] [Fintype Ty] (g : TypeGraph Ty)
    {stack stack' : List Ty} {t : Ty} (hmem : t ∉ stack) (hmem' : t ∉ stack')
    (h : ∀ c ∈ children g t,
      supportedType g (stack ++ [t]) c = supportedType g (stack' ++ [t]) c) :
    supportedType g stack t = supportedType g stack' t := by
  cases hs : g.shape (g.underlying t) with
  | basic b => rw [supportedType_basic g hmem hs, supportedType_basic g hmem' hs]
  | named => rw [supportedType_named g hmem hs, supportedType_named g hmem' hs]
  | interface => rw [supportedType_interface g hmem hs, supportedType_interface g hmem' hs]
  | pointer e =>
    rw [supportedType_pointer g hmem hs, supportedType_pointer g hmem' hs]
    exact h e (by simp [children, hs])
  | slice e =>
    rw [supportedType_slice g hmem hs, supportedType_slice g hmem' hs]
    exact h e (by simp [children, hs])
  | array n e =>
    rw [supportedType_array g hmem hs, supportedType_array g hmem' hs]
    exact h e (by simp [children, hs])
  | map k e =>
    rw [supportedType_map g hmem hs, supportedType_map g hmem' hs,
      h e (by simp [children, hs])]
  | struct fields =>
    rw [supportedType_struct g hmem hs, supportedType_struct g hmem' hs]
    exact firstFailure_congr fields
      (fun fld hf hex => h _ (mem_children_of_field hs hf hex))
  | _ =>
    rw [supportedType_unhandled g hmem (by rw [hs]; rfl),
      supportedType_unhandled g hmem' (by rw [hs]; rfl)]

/-- The result depends on the stack only through the entries that are
reachable from the type under classification. -/
theorem supportedType_stack_congr [DecidableEq Ty] [Fintype Ty] (g : TypeGraph Ty) :
    ∀ (stack : List Ty) (t : Ty) (stack' : List Ty),
      (∀ x, Reach g t x → (x ∈ stack ↔ x ∈ stack')) →
      supportedType g stack t = supportedType g stack' t := by
  refine supportedType_induct g
    (fun stack t => ∀ stack' : List Ty, (∀ x, Reach g t x → (x ∈ stack ↔ x ∈ stack')) →
      supportedType g stack t = supportedType g stack' t) ?_
  intro stack t ih stack' h
  have ht := h t Relation.ReflTransGen.refl
  by_cases hmem : t ∈ stack
  · rw [supportedType_mem g hmem, supportedType_mem g (ht.mp hmem)]
  · have hmem' : t ∉ stack' := fun h' => hmem (ht.mpr h')
    apply supportedType_step_congr g hmem hmem'
    intro c hc
    apply ih hmem c hc
    intro x hx
    have := h x (Reach.child hc hx)
    simp only [List.mem_append, List.mem_singleton, this]

/-- Soundness of a success: every type reachable from an accepted type is
off the stack, has an accepted shape and does not reach itself. -/
theorem supportedType_ok_sound [DecidableEq Ty] [Fintype Ty] (g : TypeGraph Ty) :
    ∀ (stack : List Ty) (t : Ty), supportedType g stack t = .ok () →
      ∀ x, Reach g t x → x ∉ stack ∧ accepted g x = true ∧ ¬ Reach1 g x x := by
  refine supportedType_induct g
    (fun stack t => supportedType g stack t = .ok () →
      ∀ x, Reach g t x → x ∉ stack ∧ accepted g x = true ∧ ¬ Reach1 g x x) ?_
  intro stack t ih hok
  have hmem : t ∉ stack := by
    intro hm
    rw [supportedType_mem g hm] at hok
    exact absurd hok (by simp)
  obtain ⟨hacc, hch⟩ := (supportedType_ok_iff g hmem).mp hok
  intro x hx
  rcases Relation.ReflTransGen.cases_head hx with rfl | ⟨c, hc, hcx⟩
  · refine ⟨hmem, hacc, ?_⟩
    intro hcyc
    obtain ⟨c, hc, hct⟩ := Relation.TransGen.head'_iff.mp hcyc
    have := (ih hmem c hc (hch c hc) t hct).1
    exact this (by simp)
  · obtain ⟨h1, h2, h3⟩ := ih hmem c hc (hch c hc) x hcx
    exact ⟨fun hm => h1 (List.mem_append_left _ hm), h2, h3⟩

theorem supportedType_ok_or_error [DecidableEq Ty] [Fintype Ty] (g : TypeGraph Ty)
    (stack : List Ty) (t : Ty) :
    supportedType g stack t = .ok () ∨ ∃ e, supportedType g stack t = .error e := by
  cases supportedType g stack t with
  | ok u => exact Or.inl rfl
  | error e => exact Or.inr ⟨e, rfl⟩

/-- A type that reaches a type on a cycle is never accepted. -/
theorem supportedType_error_of_cycle [DecidableEq Ty] [Fintype Ty] (g : TypeGraph Ty)
    (stack : List Ty) {t x : Ty} (hx : Reach g t x) (hcyc : Reach1 g x x) :
    ∃ e, supportedType g stack t = .error e := by
  rcases supportedType_ok_or_error g stack t with hok | herr
  · exact absurd hcyc (supportedType_ok_sound g stack t hok x hx).2.2
  · exact herr

/-- Where a failure comes from: a recursive-type failure names a reachable
type that is on the stack or on a cycle, the other two name the underlying
type of a reachable type whose own shape is not accepted. -/
theorem supportedType_error_origin [DecidableEq Ty] [Fintype Ty] (g : TypeGraph Ty) :
    ∀ (stack : List Ty) (t : Ty) (e : Err Ty), supportedType g stack t = .error e →
      (∀ c, e = .recursiveType c → Reach g t c ∧ (c ∈ stack ∨ Reach1 g c c)) ∧
      ((∀ c, e ≠ .recursiveType c) →
        ∃ x, Reach g t x ∧ accepted g x = false ∧
          (e = .unsupportedType (g.underlying x) ∨
            ∃ k, e = .unsupportedMapKey k (g.underlying x))) := by
  refine supportedType_induct g
    (fun stack t => ∀ e : Err Ty, supportedType g stack t = .error e →
      (∀ c, e = .recursiveType c → Reach g t c ∧ (c ∈ stack ∨ Reach1 g c c)) ∧
      ((∀ c, e ≠ .recursiveType c) →
        ∃ x, Reach g t x ∧ accepted g x = false ∧
          (e = .unsupportedType (g.underlying x) ∨
            ∃ k, e = .unsupportedMapKey k (g.underlying x)))) ?_
  intro stack t ih e he
  by_cases hmem : t ∈ stack
  · rw [supportedType_mem g hmem] at he
    simp only [Except.error.injEq] at he
    subst he
    refine ⟨?_, fun h => absurd rfl (h t)⟩
    intro c hc
    simp only [Err.recursiveType.injEq] at hc
    subst hc
    exact ⟨Relation.ReflTransGen.refl, Or.inl hmem⟩
  · rcases supportedType_error_cases g hmem he with ⟨hacc, hown⟩ | ⟨c, hc, hce⟩
    · refine ⟨?_, fun _ => ⟨t, Relation.ReflTransGen.refl, hacc, hown⟩⟩
      intro c hc
      subst hc
      rcases hown with h | ⟨k, h⟩ <;> exact absurd h (by simp)
    · obtain ⟨h1, h2⟩ := ih hmem c hc e hce
      constructor
      · intro c' hc'
        obtain ⟨hr, hs⟩ := h1 c' hc'
        refine ⟨Reach.child hc hr, ?_⟩
        rcases hs with hs | hs
        · rcases List.mem_append.mp hs with hs | hs
          · exact Or.inl hs
          · have : c' = t := by simpa using hs
            subst this
            exact Or.inr (Reach1.of_child hc hr)
        · exact Or.inr hs
      · intro hne
        obtain ⟨x, hx, hrest⟩ := h2 hne
        exact ⟨x, Reach.child hc hx, hrest⟩

theorem firstFailure_prefix {f : Ty → Except (Err Ty) Unit} {fld : Field Ty} {e : Err Ty}
    (post : List (Field Ty)) (hex : fld.exported = true) (hf : f fld.typ = .error e) :
    ∀ pre : List (Field Ty), (∀ x ∈ pre, x.exported = true → f x.typ = .ok ()) →
      firstFailure f (pre ++ fld :: post) = .error e
  | [], _ => by
    simp [firstFailure, List.find?_cons, hex, hf, Except.toBool]
  | x :: pre, h => by
    have ih := firstFailure_prefix post hex hf pre
      (fun y hy => h y (List.mem_cons_of_mem _ hy))
    unfold firstFailure at ih ⊢
    rw [List.cons_append, List.find?_cons]
    by_cases hx : x.exported = true
    · have := h x (List.mem_cons_self _ _) hx
      simpa [hx, this, Except.toBool] using ih
    · simpa [hx] using ih

theorem stringKey_iff (g : TypeGraph Ty) (k : Ty) :
    stringKey g k = true ↔ ∃ b, g.shape (g.underlying k) = .basic b ∧ b.Kind = .String := by
  unfold stringKey
  cases g.shape (g.underlying k) <;> simp

/-- A graph whose edges all increase a rank has no cycle. -/
theorem Reach1.rank_lt {g : TypeGraph Ty} (rank : Ty → Nat)
    (h : ∀ a b, b ∈ children g a → rank a < rank b) {x y : Ty} (hxy : Reach1 g x y) :
    rank x < rank y := by
  induction hxy with
  | single e => exact h _ _ e
  | tail _ e ih => exact lt_trans ih (h _ _ e)


/-! The slice version computes what the list version computes -/

theorem Heap.view_length (h : Heap Ty) (s : Slice) : (h.view s).length = s.len := by
  simp [Heap.view]

theorem Heap.view_congr {h h1 : Heap Ty} {s : Slice}
    (hc : ∀ i, i < s.len → h1.cell s.arr i = h.cell s.arr i) : h1.view s = h.view s := by
  unfold Heap.view
  apply List.map_congr_left
  intro i hi
  exact hc i (List.mem_range.mp hi)

theorem Frame.view {h h1 : Heap Ty} {s : Slice} (hv : s.arr < h.next)
    (hf : Frame h s h1) : h1.view s = h.view s :=
  Heap.view_congr (fun i hi => hf.2 s.arr i hv (Or.inr hi))

theorem Heap.append_view (grow : Nat → Nat) (h : Heap Ty) (s : Slice) (t : Ty)
    {stack : List Ty} (hview : h.view s = stack.map some) :
    (h.append grow s t).2.view (h.append grow s t).1 = (stack ++ [t]).map some := by
  unfold Heap.append
  by_cases hcap : s.len < s.cap
  · simp only [hcap, if_true, Heap.view, List.range_succ, List.map_append, List.map_cons,
      List.map_nil, and_self, if_true]
    congr 1
    rw [← hview]
    unfold Heap.view
    apply List.map_congr_left
    intro i hi
    have : i ≠ s.len := Nat.ne_of_lt (List.mem_range.mp hi)
    simp [this]
  · simp only [hcap, if_false, Heap.view, List.range_succ, List.map_append, List.map_cons,
      List.map_nil, if_true, Nat.lt_irrefl]
    congr 1
    rw [← hview]
    unfold Heap.view
    apply List.map_congr_left
    intro i hi
    simp [List.mem_range.mp hi]

theorem Heap.append_valid (grow : Nat → Nat) (h : Heap Ty) (s : Slice) (t : Ty)
    (hv : s.len < s.cap → s.arr < h.next) :
    (h.append grow s t).1.arr < (h.append grow s t).2.next := by
  unfold Heap.append
  by_cases hcap : s.len < s.cap
  · simpa [hcap] using hv hcap
  · simp [hcap]

theorem Heap.append_frame (grow : Nat → Nat) (h : Heap Ty) (s : Slice) (t : Ty) :
    Frame h s (h.append grow s t).2 ∧
      ∀ a i, a < h.next → (a ≠ s.arr ∨ i < s.len) →
        a < (h.append grow s t).2.next ∧
          (a ≠ (h.append grow s t).1.arr ∨ i < (h.append grow s t).1.len) := by
  unfold Heap.append Frame
  by_cases hcap : s.len < s.cap
  · simp only [hcap, if_true, le_refl, true_and]
    constructor
    · intro a i _ hai
      have : ¬ (a = s.arr ∧ i = s.len) := by
        rintro ⟨h1, h2⟩
        rcases hai with hai | hai
        · exact hai h1
        · exact absurd h2 (Nat.ne_of_lt hai)
      simp [this]
    · intro a i ha hai
      refine ⟨ha, ?_⟩
      rcases hai with hai | hai
      · exact Or.inl hai
      · exact Or.inr (Nat.lt_succ_of_lt hai)
  · simp only [hcap, if_false]
    refine ⟨⟨Nat.le_succ _, ?_⟩, ?_⟩
    · intro a i ha _
      simp [Nat.ne_of_lt ha]
    · intro a i ha _
      exact ⟨Nat.lt_succ_of_lt ha, Or.inl (Nat.ne_of_lt ha)⟩

theorem Frame.trans_child {h h1 h2 : Heap Ty} {s s1 : Slice}
    (hnext : h.next ≤ h1.next)
    (hsub : ∀ a i, a < h.next → (a ≠ s.arr ∨ i < s.len) →
      a < h1.next ∧ (a ≠ s1.arr ∨ i < s1.len))
    (h01 : ∀ a i, a < h.next → (a ≠ s.arr ∨ i < s.len) → h1.cell a i = h.cell a i)
    (h12 : Frame h1 s1 h2) : Frame h s h2 := by
  refine ⟨le_trans hnext h12.1, ?_⟩
  intro a i ha hai
  obtain ⟨ha1, hai1⟩ := hsub a i ha hai
  rw [h12.2 a i ha1 hai1, h01 a i ha hai]

theorem fieldLoopMem_refines {m : Heap Ty → Slice → Ty → OutcomeMem Ty}
    {p : List Ty → Ty → Outcome Ty} (hmp : Refines m p) (s : Slice) (stack : List Ty) :
    ∀ (fs : List (Field Ty)) (h : Heap Ty), s.arr < h.next → h.view s = stack.map some →
      (fieldLoopMem (fun h2 c => m h2 s c) h fs).map Prod.fst = fieldLoop (p stack) fs ∧
        ∀ r h1, fieldLoopMem (fun h2 c => m h2 s c) h fs = some (r, h1) → Frame h s h1
  | [], h, _, _ => by
    refine ⟨rfl, ?_⟩
    intro r h1 hr
    simp only [fieldLoopMem, Option.some.injEq, Prod.mk.injEq] at hr
    rw [← hr.2]
    exact ⟨le_refl _, fun _ _ _ _ => rfl⟩
  | fld :: rest, h, hv, hview => by
    unfold fieldLoopMem fieldLoop
    by_cases hex : fld.exported = true
    · simp only [hex, if_true]
      obtain ⟨hres, hframe⟩ := hmp h s fld.typ stack (fun _ => hv) hview
      cases hm : m h s fld.typ with
      | none =>
        rw [hm] at hres
        simp only [Option.map_none'] at hres
        simp [← hres]
      | some rh =>
        obtain ⟨r, h1⟩ := rh
        rw [hm] at hres
        simp only [Option.map_some'] at hres
        have hf := hframe r h1 hm
        rw [← hres]
        cases r with
        | error e =>
          refine ⟨rfl, ?_⟩
          intro r2 h2 hr
          simp only [Option.some.injEq, Prod.mk.injEq] at hr
          rw [← hr.2]
          exact hf
        | ok u =>
          have ih := fieldLoopMem_refines hmp s stack rest h1
            (lt_of_lt_of_le hv hf.1) ((hf.view hv).trans hview)
          refine ⟨ih.1, ?_⟩
          intro r2 h2 hr
          have hf2 := ih.2 r2 h2 hr
          refine ⟨le_trans hf.1 hf2.1, ?_⟩
          intro a i ha hai
          rw [hf2.2 a i (lt_of_lt_of_le ha hf.1) hai, hf.2 a i ha hai]
    · simp only [hex, if_false]
      exact fieldLoopMem_refines hmp s stack rest h hv hview

theorem supportedTypeMemBody_refines [DecidableEq Ty] (g : TypeGraph Ty) (grow : Nat → Nat)
    {m : Heap Ty → Slice → Ty → OutcomeMem Ty} {p : List Ty → Ty → Outcome Ty}
    (hmp : Refines m p) :
    Refines (supportedTypeMemBody g grow m) (supportedTypeBody g p) := by
  intro h s t stack hv hview
  have hmem : some t ∈ h.view s ↔ t ∈ stack := by
    rw [hview]
    simp
  unfold supportedTypeMemBody supportedTypeBody
  by_cases hin : t ∈ stack
  · simp only [hmem.mpr hin, hin, if_true, Option.map_some', true_and]
    intro r h1 hr
    simp only [Option.some.injEq, Prod.mk.injEq] at hr
    rw [← hr.2]
    exact ⟨le_refl _, fun _ _ _ _ => rfl⟩
  · have hnin : ¬ some t ∈ h.view s := fun hc => hin (hmem.mp hc)
    simp only [hnin, hin, if_false]
    have hview1 := Heap.append_view grow h s t hview
    have hv1 := Heap.append_valid grow h s t hv
    obtain ⟨hfr, hsub⟩ := Heap.append_frame grow h s t
    have hleaf : ∀ r : Except (Err Ty) Unit, ∀ r2 h2,
        (some (r, (h.append grow s t).2) : OutcomeMem Ty) = some (r2, h2) → Frame h s h2 := by
      intro r r2 h2 hr
      simp only [Option.some.injEq, Prod.mk.injEq] at hr
      rw [← hr.2]
      exact hfr
    have hchild : ∀ c,
        (m (h.append grow s t).2 (h.append grow s t).1 c).map Prod.fst = p (stack ++ [t]) c ∧
        ∀ r h2, m (h.append grow s t).2 (h.append grow s t).1 c = some (r, h2) →
          Frame h s h2 := by
      intro c
      obtain ⟨hres, hframe⟩ := hmp _ _ c (stack ++ [t]) (fun _ => hv1) hview1
      exact ⟨hres, fun r h2 hr => Frame.trans_child hfr.1 hsub hfr.2 (hframe r h2 hr)⟩
    cases hs : g.shape (g.underlying t) with
    | basic b =>
      simp only []
      split
      · exact ⟨rfl, hleaf _⟩
      · exact ⟨rfl, hleaf _⟩
    | pointer e => exact hchild e
    | slice e => exact hchild e
    | array n e => exact hchild e
    | map k e =>
      simp only []
      split
      · exact ⟨rfl, hleaf _⟩
      · exact hchild e
    | struct fields =>
      simp only []
      split
      · exact ⟨rfl, hleaf _⟩
      · obtain ⟨hres, hframe⟩ :=
          fieldLoopMem_refines hmp (h.append grow s t).1 (stack ++ [t]) fields _ hv1 hview1
        exact ⟨hres, fun r h2 hr => Frame.trans_child hfr.1 hsub hfr.2 (hframe r h2 hr)⟩
    | _ => exact ⟨rfl, hleaf _⟩

theorem supportedTypeMem_refines [DecidableEq Ty] (g : TypeGraph Ty) (grow : Nat → Nat) :
    ∀ fuel, Refines (supportedTypeMem g grow fuel) (supportedTypeFuel g fuel)
  | 0 => by
    intro h s t stack _ _
    refine ⟨rfl, ?_⟩
    intro r h1 hr
    simp [supportedTypeMem] at hr
  | fuel + 1 => by
    have ih := supportedTypeMem_refines g grow fuel
    have := supportedTypeMemBody_refines g grow ih
    intro h s t stack hv hview
    rw [supportedTypeMem, supportedTypeFuel]
    exact this h s t stack hv hview

/-- The slice version returns the value of `supportedType` on the list the
slice holds, whatever the capacity of the slice, the contents of the heap and
the growth of `append`. -/
theorem supportedTypeMem_eq [DecidableEq Ty] [Fintype Ty] (g : TypeGraph Ty)
    (grow : Nat → Nat) (h : Heap Ty) (s : Slice) (t : Ty) (stack : List Ty)
    (hv : s.len < s.cap → s.arr < h.next) (hview : h.view s = stack.map some)
    {fuel : Nat} (hfuel : unvisited stack < fuel) :
    (supportedTypeMem g grow fuel h s t).map Prod.fst = some (supportedType g stack t) := by
  rw [(supportedTypeMem_refines g grow fuel h s t stack hv hview).1]
  exact supportedTypeFuel_eq g hfuel

theorem Link.error [DecidableEq Ty] [Fintype Ty] {g : TypeGraph Ty} {stack : List Ty}
    {x y : Ty} {e : Err Ty} (hmem : x ∉ stack) (hl : Link g stack x y)
    (he : supportedType g (stack ++ [x]) y = .error e) :
    supportedType g stack x = .error e := by
  cases hl with
  | pointer hs => rw [supportedType_pointer g hmem hs, he]
  | slice hs => rw [supportedType_slice g hmem hs, he]
  | array hs => rw [supportedType_array g hmem hs, he]
  | map hs hk => rw [supportedType_map g hmem hs, if_pos hk, he]
  | field hs hex hpre =>
    rw [supportedType_struct g hmem hs]
    exact firstFailure_prefix _ hex he _ hpre

/-- A chain that the classifier follows to a type on the stack ends in a
recursive-type failure that names a type of the chain. -/
theorem Chain.recursive [DecidableEq Ty] [Fintype Ty] (g : TypeGraph Ty) (target : Ty) :
    ∀ (rest : List Ty) (stack : List Ty) (x : Ty), Chain g stack x rest target →
      target ∈ stack ++ [x] →
      ∃ c, supportedType g stack x = .error (.recursiveType c) ∧
        (c ∈ x :: rest ∨ c = target)
  | [], stack, x, hch, ht => by
    by_cases hmem : x ∈ stack
    · exact ⟨x, supportedType_mem g hmem, Or.inl (List.mem_cons_self _ _)⟩
    · exact ⟨target, Link.error hmem hch (supportedType_mem g ht), Or.inr rfl⟩
  | y :: rest, stack, x, hch, ht => by
    by_cases hmem : x ∈ stack
    · exact ⟨x, supportedType_mem g hmem, Or.inl (List.mem_cons_self _ _)⟩
    · obtain ⟨c, hc, hin⟩ := Chain.recursive g target rest (stack ++ [x]) y hch.2
        (List.mem_append_left _ ht)
      refine ⟨c, Link.error hmem hch.1 hc, ?_⟩
      rcases hin with hin | hin
      · exact Or.inl (List.mem_cons_of_mem _ hin)
      · exact Or.inr hin

/-- A chain of pairwise distinct types off the stack, followed to a type on
the stack, ends in the recursive-type failure that names that type. -/
theorem Chain.recursive_target [DecidableEq Ty] [Fintype Ty] (g : TypeGraph Ty)
    (target : Ty) :
    ∀ (rest : List Ty) (stack : List Ty) (x : Ty), Chain g stack x rest target →
      target ∈ stack ++ [x] → (∀ y ∈ x :: rest, y ∉ stack) → (x :: rest).Nodup →
      supportedType g stack x = .error (.recursiveType target)
  | [], stack, x, hch, ht, hoff, _ =>
    Link.error (hoff x (List.mem_cons_self _ _)) hch (supportedType_mem g ht)
  | y :: rest, stack, x, hch, ht, hoff, hnd => by
    have hx : x ∉ stack := hoff x (List.mem_cons_self _ _)
    have hnd2 := List.nodup_cons.mp hnd
    refine Link.error hx hch.1
      (Chain.recursive_target g target rest (stack ++ [x]) y hch.2
        (List.mem_append_left _ ht) ?_ hnd2.2)
    intro z hz hzs
    rcases List.mem_append.mp hzs with h1 | h1
    · exact hoff z (List.mem_cons_of_mem _ hz) h1
    · have : z = x := by simpa using h1
      rw [this] at hz
      exact hnd2.1 hz

/-! The claims -/

/-- C1, the cycle rule: when an entry of the stack is identical to `t`, the
call `supportedType(stack, t)` fails with the recursive-type diagnostic naming
`t`, for every graph and so for every underlying shape of `t`; the body alone
gives this answer whatever its recursive calls would return, since the scan of
the stack comes first. -/
theorem c1_cycle_rule [DecidableEq Ty] [Fintype Ty] (g : TypeGraph Ty)
    (stack : List Ty) (t : Ty) (h : t ∈ stack) :
    supportedType g stack t = .error (.recursiveType t) ∧
      ∀ self, supportedTypeBody g self stack t = some (.error (.recursiveType t)) := by
  refine ⟨supportedType_mem g h, fun self => ?_⟩
  simp [supportedTypeBody, h]

/-- C1 at a basic type, a zero-field struct being no different: with `int`
on the stack, classifying `int` fails with the recursive-type diagnostic. -/
theorem c1_cycle_rule_witness :
    (1 : Fin 2) ∈ [(1 : Fin 2)] ∧
      gChan.shape (gChan.underlying 1) = .basic (.typ .Int) ∧
      supportedType gChan [1] 1 = .error (.recursiveType 1) :=
  ⟨by decide, by decide, (c1_cycle_rule gChan [1] 1 (by decide)).1⟩

/-- C2, termination: for every finite type graph, stack and type, the
recursion of `supportedType` returns as soon as the depth allowed exceeds the
number of types that are not on the stack, and the value is
`supportedType g stack t`. The body calls itself only with the stack extended
by `t`, and only when `t` was not on the stack; that stack is one entry longer
and leaves strictly fewer types of the graph unvisited. -/
theorem c2_terminates [DecidableEq Ty] [Fintype Ty] (g : TypeGraph Ty)
    (stack : List Ty) (t : Ty) :
    (∀ fuel, unvisited stack < fuel →
      supportedTypeFuel g fuel stack t = some (supportedType g stack t)) ∧
    (∀ self self' : List Ty → Ty → Outcome Ty,
      (t ∉ stack → ∀ c ∈ children g t, self (stack ++ [t]) c = self' (stack ++ [t]) c) →
      supportedTypeBody g self stack t = supportedTypeBody g self' stack t) ∧
    (t ∉ stack → (stack ++ [t]).length = stack.length + 1 ∧
      unvisited (stack ++ [t]) < unvisited stack) := by
  refine ⟨fun fuel h => supportedTypeFuel_eq g h, fun self self' h => ?_, fun h => ?_⟩
  · exact supportedTypeBody_congr g h
  · exact ⟨by simp, unvisited_append_lt h⟩

/-- C2 on a graph with a cycle (`A` contains `B` contains `*A`): a depth of
six is enough for the five types, and the call returns the recursive-type
failure. -/
theorem c2_terminates_witness :
    unvisited ([] : List (Fin 5)) < 6 ∧
      supportedTypeFuel gCycle 6 [] 0 = some (supportedType gCycle [] 0) ∧
      supportedType gCycle [] 0 = .error (.recursiveType 0) :=
  ⟨by decide, (c2_terminates gCycle [] 0).1 6 (by decide), by decide⟩

/-- C3 fails on the code: in
`type S struct { F N; G M }; type N chan int; type M map[int]string` the
exported fields `F` and `G` have the named types `N` and `M`. Inside
`supportedType([], S)` the classification of `F` fails with the
unsupported-type diagnostic and that of `G` with the unsupported-map-key
diagnostic, as they do when `N` and `M` are classified directly, and `S` is
rejected. The graph is one `go/types` can produce. -/
theorem c3_named_field_counterexample :
    gNamedField.resolved ∧
      gNamedField.shape (gNamedField.underlying 0)
        = .struct [⟨"F", 2, true⟩, ⟨"G", 5, true⟩] ∧
      gNamedField.shape 2 = .named ∧ gNamedField.shape 5 = .named ∧
      supportedType gNamedField ([] ++ [0]) 2 = .error (.unsupportedType 3) ∧
      supportedType gNamedField ([] ++ [0]) 5 = .error (.unsupportedMapKey 4 6) ∧
      supportedType gNamedField [] 2 = .error (.unsupportedType 3) ∧
      supportedType gNamedField [] 5 = .error (.unsupportedMapKey 4 6) ∧
      supportedType gNamedField [] 0 = .error (.unsupportedType 3) := by
  refine ⟨?_, by decide, by decide, by decide, by decide, by decide, by decide,
    by decide, by decide⟩
  unfold TypeGraph.resolved
  decide

/-- C3 as amended: a named type `N` used as the type of an exported field of
a struct `S` is classified through its definition. With `N` not on the stack
extended by `S`: if `N` is defined with a shape the switch has no case for (a
channel), the field fails with the unsupported-type diagnostic naming the
underlying type, and if `N` is defined as a map whose key is not a string, it
fails with the unsupported-map-key diagnostic; in both cases this is the
result of classifying `N` on its own with an empty stack, and `S` is rejected.
The field is accepted without a look at the definition only when
`Underlying()` itself returns a Named object, which it does in no graph of
`go/types`. -/
theorem c3_named_field_amended [DecidableEq Ty] [Fintype Ty] (g : TypeGraph Ty)
    (stack : List Ty) (S : Ty) (fields : List (Field Ty)) (fld : Field Ty)
    (hS : g.shape (g.underlying S) = .struct fields) (hSmem : S ∉ stack)
    (hfld : fld ∈ fields) (hex : fld.exported = true)
    (_hN : g.shape fld.typ = .named) (hmem : fld.typ ∉ stack ++ [S]) :
    ((g.shape (g.underlying fld.typ)).unhandled = true →
      supportedType g (stack ++ [S]) fld.typ
        = .error (.unsupportedType (g.underlying fld.typ)) ∧
      supportedType g [] fld.typ = supportedType g (stack ++ [S]) fld.typ ∧
      ∃ e, supportedType g stack S = .error e) ∧
    (∀ k v, g.shape (g.underlying fld.typ) = .map k v → stringKey g k = false →
      supportedType g (stack ++ [S]) fld.typ
        = .error (.unsupportedMapKey k (g.underlying fld.typ)) ∧
      supportedType g [] fld.typ = supportedType g (stack ++ [S]) fld.typ ∧
      ∃ e, supportedType g stack S = .error e) ∧
    (g.shape (g.underlying fld.typ) = .named →
      supportedType g (stack ++ [S]) fld.typ = .ok ()) ∧
    (g.resolved → g.shape (g.underlying fld.typ) ≠ .named) := by
  have hrej : ∀ e, supportedType g (stack ++ [S]) fld.typ = .error e →
      ∃ e, supportedType g stack S = .error e := by
    intro e he
    rcases supportedType_ok_or_error g stack S with hok | herr
    · have := ((supportedType_ok_iff g hSmem).mp hok).2 _ (mem_children_of_field hS hfld hex)
      rw [he] at this
      exact absurd this (by simp)
    · exact herr
  refine ⟨fun hu => ?_, fun k v hs hk => ?_, fun hs => supportedType_named g hmem hs,
    fun hres hs => ?_⟩
  · have h1 := supportedType_unhandled g hmem hu
    exact ⟨h1, by rw [h1, supportedType_unhandled g (List.not_mem_nil _) hu], hrej _ h1⟩
  · have h1 : supportedType g (stack ++ [S]) fld.typ
        = .error (.unsupportedMapKey k (g.underlying fld.typ)) := by
      rw [supportedType_map g hmem hs, if_neg (by simp [hk])]
    refine ⟨h1, ?_, hrej _ h1⟩
    rw [h1, supportedType_map g (List.not_mem_nil _) hs, if_neg (by simp [hk])]
  · have := (hres fld.typ).1
    rw [hs] at this
    exact absurd this (by simp [Shape.declared])

/-- C3 as amended, on
`type S struct { F N; G M }; type N chan int; type M map[int]string`: the
field of type `N` fails inside `S` exactly as `N` fails on its own. -/
theorem c3_named_field_amended_witness :
    supportedType gNamedField ([] ++ [0]) 2 = .error (.unsupportedType 3) ∧
      supportedType gNamedField [] 2 = supportedType gNamedField ([] ++ [0]) 2 ∧
      ∃ e, supportedType gNamedField [] 0 = .error e :=
  (c3_named_field_amended gNamedField [] 0 [⟨"F", 2, true⟩, ⟨"G", 5, true⟩]
    ⟨"F", 2, true⟩ (by decide) (by decide) (by decide) (by decide) (by decide)
    (by decide)).1 (by decide)

/-- C4 fails on the code: in
`type A struct { C chan int; B B }; type B struct { A *A }` the type `A`
reaches itself through `B` and `*A`, and `supportedType([], A)` fails with the
unsupported-type diagnostic of the field `C`, not with the recursive-type
one. -/
theorem c4_chain_cycle_counterexample :
    Edge gCycleChan 0 2 ∧ Reach1 gCycleChan 2 0 ∧
      supportedType gCycleChan [] 0 = .error (.unsupportedType 5) ∧
      supportedType gCycleChan [] 0 ≠ .error (.recursiveType 0) := by
  refine ⟨?_, ?_, by decide, by decide⟩
  · show (2 : Fin 7) ∈ children gCycleChan 0
    decide
  · have e1 : Edge gCycleChan 2 4 := by
      show (4 : Fin 7) ∈ children gCycleChan 2
      decide
    have e2 : Edge gCycleChan 4 0 := by
      show (0 : Fin 7) ∈ children gCycleChan 4
      decide
    exact Relation.TransGen.tail (Relation.TransGen.single e1) e2

/-- C4 as amended: a type `A` that reaches itself through a chain of two or
more types (`A` contains `B`, and `B` reaches `A`) is never accepted. The call
with an empty stack returns within a depth of the number of types of the graph
plus one, and what it returns is a failure. The failure is the recursive-type
diagnostic, naming a type of the chain, whenever the classifier gets to follow
a chain `A`, `B`, `rest`, `A`: every map on it has a string key, and at every
struct on it the exported fields declared before the field of the chain are
supported under the stack at that point. It names `A` when the types of the
chain are pairwise distinct. The failure is a recursive-type diagnostic too
when every type reachable from `A` has a shape the switch accepts. -/
theorem c4_chain_cycle_amended [DecidableEq Ty] [Fintype Ty] (g : TypeGraph Ty)
    (A B : Ty) (rest : List Ty) (hAB : Edge g A B) (hBA : Reach1 g B A) :
    supportedTypeFuel g (Fintype.card Ty + 1) [] A = some (supportedType g [] A) ∧
    (∃ e, supportedType g [] A = .error e) ∧
    (Chain g [] A (B :: rest) A →
      (∃ c, supportedType g [] A = .error (.recursiveType c) ∧ c ∈ A :: B :: rest) ∧
      ((A :: B :: rest).Nodup → supportedType g [] A = .error (.recursiveType A))) ∧
    ((∀ x, Reach g A x → accepted g x = true) →
      ∃ c, supportedType g [] A = .error (.recursiveType c) ∧
        Reach g A c ∧ Reach1 g c c) := by
  have hcyc : Reach1 g A A := Relation.TransGen.head hAB hBA
  have herr := supportedType_error_of_cycle g [] Relation.ReflTransGen.refl hcyc
  refine ⟨supportedTypeFuel_eq g (Nat.lt_succ_of_le (unvisited_le_card _)), herr, ?_, ?_⟩
  · intro hch
    constructor
    · obtain ⟨c, hc, hin⟩ := Chain.recursive g A (B :: rest) [] A hch (by simp)
      refine ⟨c, hc, ?_⟩
      rcases hin with hin | hin
      · exact hin
      · rw [hin]
        exact List.mem_cons_self _ _
    · intro hnd
      exact Chain.recursive_target g A (B :: rest) [] A hch (by simp)
        (fun y _ => List.not_mem_nil y) hnd
  · intro hacc
    obtain ⟨e, he⟩ := herr
    obtain ⟨h1, h2⟩ := supportedType_error_origin g [] A e he
    cases e with
    | recursiveType c =>
      obtain ⟨hr, hc⟩ := h1 c rfl
      rcases hc with hc | hc
      · exact absurd hc (List.not_mem_nil _)
      · exact ⟨c, he, hr, hc⟩
    | unsupportedType u =>
      obtain ⟨x, hx, hbad, _⟩ := h2 (fun c => by simp)
      rw [hacc x hx] at hbad
      exact absurd hbad (by simp)
    | unsupportedMapKey k m =>
      obtain ⟨x, hx, hbad, _⟩ := h2 (fun c => by simp)
      rw [hacc x hx] at hbad
      exact absurd hbad (by simp)

/-- C4 as amended, on
`type A struct { N int; B B; C chan int }; type B struct { A *A }`: the field
`N` declared before `B` is supported, the classifier follows the chain `A`,
`B`, `*A`, `A`, and the failure is the recursive-type diagnostic naming `A`,
although the field `C` declared after `B` has a shape that is not accepted. -/
theorem c4_chain_cycle_amended_witness :
    Edge gCycleFirst 0 2 ∧ Reach1 gCycleFirst 2 0 ∧ Chain gCycleFirst [] 0 [2, 4] 0 ∧
      accepted gCycleFirst 5 = false ∧
      supportedTypeFuel gCycleFirst (Fintype.card (Fin 7) + 1) [] 0
        = some (supportedType gCycleFirst [] 0) ∧
      supportedType gCycleFirst [] 0 = .error (.recursiveType 0) :=
  have hAB : Edge gCycleFirst 0 2 := by
    show (2 : Fin 7) ∈ children gCycleFirst 0
    decide
  have e1 : Edge gCycleFirst 2 4 := by
    show (4 : Fin 7) ∈ children gCycleFirst 2
    decide
  have e2 : Edge gCycleFirst 4 0 := by
    show (0 : Fin 7) ∈ children gCycleFirst 4
    decide
  have hBA : Reach1 gCycleFirst 2 0 :=
    Relation.TransGen.tail (Relation.TransGen.single e1) e2
  have l1 : Link gCycleFirst [] 0 2 :=
    @Link.field _ _ _ gCycleFirst [] 0 [⟨"N", 6, true⟩] [⟨"C", 5, true⟩] ⟨"B", 2, true⟩
      (by decide) (by decide) (by decide)
  have l2 : Link gCycleFirst ([] ++ [0]) 2 4 :=
    @Link.field _ _ _ gCycleFirst ([] ++ [0]) 2 [] [] ⟨"A", 4, true⟩
      (by decide) (by decide) (by decide)
  have l3 : Link gCycleFirst ([] ++ [0] ++ [2]) 4 0 := Link.pointer (by decide)
  have hch : Chain gCycleFirst [] 0 [2, 4] 0 := ⟨l1, l2, l3⟩
  have h := c4_chain_cycle_amended gCycleFirst 0 2 [4] hAB hBA
  ⟨hAB, hBA, hch, by decide, h.1, (h.2.2.1 hch).2 (by decide)⟩

/-- C5 fails on the code: in `type S struct { X chan int; Self *S }` the
exported field `Self` is a pointer to `S` itself, and `supportedType([], S)`
returns the unsupported-type failure of the field `X` declared before it. -/
theorem c5_self_reference_counterexample :
    gSelfChan.shape (gSelfChan.underlying 0)
        = .struct [⟨"X", 2, true⟩, ⟨"Self", 3, true⟩] ∧
      gSelfChan.shape (gSelfChan.underlying 3) = .pointer 0 ∧
      supportedType gSelfChan [] 0 = .error (.unsupportedType 2) ∧
      supportedType gSelfChan [] 0 ≠ .error (.recursiveType 0) := by
  decide

/-- C5 as amended: a struct type `S` with an exported field whose type is a
pointer to `S` itself is never accepted, `supportedType` with an empty stack
returns a failure for it; the failure is the recursive-type diagnostic naming
`S` when every exported field declared before that field is supported under
the stack `[S]`. -/
theorem c5_self_reference_amended [DecidableEq Ty] [Fintype Ty] (g : TypeGraph Ty)
    (S : Ty) (pre post : List (Field Ty)) (fld : Field Ty)
    (hS : g.shape (g.underlying S) = .struct (pre ++ fld :: post))
    (hex : fld.exported = true)
    (hp : g.shape (g.underlying fld.typ) = .pointer S) :
    (∃ e, supportedType g [] S = .error e) ∧
    ((∀ x ∈ pre, x.exported = true → supportedType g ([] ++ [S]) x.typ = .ok ()) →
      supportedType g [] S = .error (.recursiveType S)) := by
  have hne : fld.typ ≠ S := by
    intro h
    rw [h, hS] at hp
    exact absurd hp (by simp)
  have hfld : supportedType g ([] ++ [S]) fld.typ = .error (.recursiveType S) := by
    rw [supportedType_pointer g (by simpa using hne) hp]
    exact supportedType_mem g (by simp)
  have hres := supportedType_struct g (List.not_mem_nil S) hS
  constructor
  · rcases supportedType_ok_or_error g [] S with hok | herr
    · rw [hres, firstFailure_ok_iff] at hok
      have := hok fld (by simp) hex
      rw [hfld] at this
      exact absurd this (by simp)
    · exact herr
  · intro hpre
    rw [hres]
    exact firstFailure_prefix post hex hfld pre hpre

/-- C5 as amended, on `type S struct { N int; Self *S }`: the field `N`
declared first is supported, and the failure is the recursive-type
diagnostic naming `S`. -/
theorem c5_self_reference_amended_witness :
    (∀ x ∈ [(⟨"N", 2, true⟩ : Field (Fin 4))], x.exported = true →
        supportedType gSelf ([] ++ [0]) x.typ = .ok ()) ∧
      supportedType gSelf [] 0 = .error (.recursiveType 0) :=
  have hpre : ∀ x ∈ [(⟨"N", 2, true⟩ : Field (Fin 4))], x.exported = true →
      supportedType gSelf ([] ++ [0]) x.typ = .ok () := by
    intro x hx _
    rw [List.mem_singleton.mp hx]
    decide
  ⟨hpre, (c5_self_reference_amended gSelf 0 [⟨"N", 2, true⟩] [] ⟨"Self", 3, true⟩
    (by decide) (by decide) (by decide)).2 hpre⟩

/-- C6, first failure in declaration order: for a type `t` that is not on the
stack and whose underlying shape is a struct, `supportedType(stack, t)` is the
failure of the first field, in declaration order, that is exported and whose
type fails under the stack extended with `t`. Whatever fields follow that field
do not change the result, and the result is success when no exported field
fails. -/
theorem c6_first_failure [DecidableEq Ty] [Fintype Ty] (g : TypeGraph Ty)
    (stack : List Ty) (t : Ty) (fields : List (Field Ty)) (hmem : t ∉ stack)
    (hs : g.shape (g.underlying t) = .struct fields) :
    supportedType g stack t = firstFailure (supportedType g (stack ++ [t])) fields ∧
    (∀ pre fld post e, fields = pre ++ fld :: post →
      (∀ x ∈ pre, x.exported = true → supportedType g (stack ++ [t]) x.typ = .ok ()) →
      fld.exported = true → supportedType g (stack ++ [t]) fld.typ = .error e →
      supportedType g stack t = .error e) ∧
    ((∀ x ∈ fields, x.exported = true → supportedType g (stack ++ [t]) x.typ = .ok ()) →
      supportedType g stack t = .ok ()) := by
  have hres := supportedType_struct g hmem hs
  refine ⟨hres, ?_, ?_⟩
  · intro pre fld post e hf hpre hex he
    rw [hres, hf]
    exact firstFailure_prefix post hex he pre hpre
  · intro hall
    rw [hres]
    exact (firstFailure_ok_iff _ _).mpr hall

/-- C6 on `struct { A string; b chan int; C chan int; D map[int]string }`:
the unexported `b` is skipped, `C` is the first exported field that fails, and
its failure is returned although `D` after it fails differently. -/
theorem c6_first_failure_witness :
    supportedType gFields ([] ++ [0]) 2 = .error (.unsupportedType 2) ∧
      supportedType gFields ([] ++ [0]) 3 = .error (.unsupportedMapKey 4 3) ∧
      supportedType gFields [] 0 = .error (.unsupportedType 2) :=
  ⟨by decide, by decide,
    (c6_first_failure gFields [] 0
      [⟨"A", 1, true⟩, ⟨"b", 2, false⟩, ⟨"C", 2, true⟩, ⟨"D", 3, true⟩]
      (by decide) (by decide)).2.1
      [⟨"A", 1, true⟩, ⟨"b", 2, false⟩] ⟨"C", 2, true⟩ [⟨"D", 3, true⟩]
      (.unsupportedType 2) (by decide) (by decide) (by decide) (by decide)⟩

/-- C7 fails on the code: `chan int` refers to no other type through the
edges the classifier follows, so its shape holds no reference back to it, and
it has no record fields; `supportedType([], chan int)` fails with the
unsupported-type diagnostic. -/
theorem c7_acyclic_counterexample :
    gChan.shape (gChan.underlying 0) = .chan 1 ∧ children gChan 0 = [] ∧
      ¬ Reach1 gChan 0 0 ∧
      supportedType gChan [] 0 = .error (.unsupportedType 0) := by
  refine ⟨by decide, by decide, ?_, by decide⟩
  intro h
  obtain ⟨c, hc, _⟩ := Relation.TransGen.head'_iff.mp h
  have : c ∈ children gChan 0 := hc
  rw [show children gChan 0 = [] by decide] at this
  exact absurd this (List.not_mem_nil _)

/-- C7 as amended: for every type `T` that does not reach itself, whose own
shape is one the switch accepts (a basic type other than the invalid one, a
named type, an interface, a pointer, a slice, an array, a map with a string
key, a struct), and whose components (the types of its exported fields, or its
element or map value type) are each supported when classified on their own
with an empty stack, `supportedType` with an empty stack returns success. -/
theorem c7_acyclic_amended [DecidableEq Ty] [Fintype Ty] (g : TypeGraph Ty) (T : Ty)
    (hacyc : ¬ Reach1 g T T) (hacc : accepted g T = true)
    (hch : ∀ c ∈ children g T, supportedType g [] c = .ok ()) :
    supportedType g [] T = .ok () := by
  rw [supportedType_ok_iff g (List.not_mem_nil T)]
  refine ⟨hacc, fun c hc => ?_⟩
  rw [← hch c hc]
  apply supportedType_stack_congr
  intro x hx
  constructor
  · intro hm
    have : x = T := by simpa using hm
    subst this
    exact absurd (Reach1.of_child hc hx) hacyc
  · intro hm
    exact absurd hm (List.not_mem_nil _)

/-- C7 as amended, on the diamond
`type T struct { A *U; B []U }; type U struct { X, Y string }`. -/
theorem c7_acyclic_amended_witness :
    ¬ Reach1 gDiamond 0 0 ∧ accepted gDiamond 0 = true ∧
      (∀ c ∈ children gDiamond 0, supportedType gDiamond [] c = .ok ()) ∧
      supportedType gDiamond [] 0 = .ok () :=
  have hacyc : ¬ Reach1 gDiamond 0 0 := fun h =>
    absurd (Reach1.rank_lt (fun x : Fin 7 => x.val) (by decide) h) (lt_irrefl _)
  have hch : ∀ c ∈ children gDiamond 0, supportedType gDiamond [] c = .ok () := by
    decide
  ⟨hacyc, by decide, hch, c7_acyclic_amended gDiamond 0 hacyc (by decide) hch⟩

/-- C8, sibling branches: when no type reachable from `T` reaches itself,
`supportedType` with an empty stack never returns a recursive-type failure for
`T`, also when one type is reached along two paths. This does not depend on
the stack being copied: with the stack in a slice of any capacity, so that the
`append` of one branch overwrites the cell the `append` of its sibling wrote,
the call returns the same value. -/
theorem c8_no_false_cycle [DecidableEq Ty] [Fintype Ty] (g : TypeGraph Ty) (T : Ty)
    (h : ∀ x, Reach g T x → ¬ Reach1 g x x) :
    (∀ c, supportedType g [] T ≠ .error (.recursiveType c)) ∧
    ∀ (grow : Nat → Nat) (hp : Heap Ty) (s : Slice), s.len = 0 →
      (s.len < s.cap → s.arr < hp.next) →
      ∃ r, (supportedTypeMem g grow (Fintype.card Ty + 1) hp s T).map Prod.fst = some r ∧
        r = supportedType g [] T ∧ ∀ c, r ≠ .error (.recursiveType c) := by
  have h1 : ∀ c, supportedType g [] T ≠ .error (.recursiveType c) := by
    intro c hc
    obtain ⟨hr, hs⟩ := (supportedType_error_origin g [] T _ hc).1 c rfl
    rcases hs with hs | hs
    · exact absurd hs (List.not_mem_nil _)
    · exact h c hr hs
  refine ⟨h1, ?_⟩
  intro grow hp s hlen hv
  refine ⟨supportedType g [] T, ?_, rfl, h1⟩
  apply supportedTypeMem_eq g grow hp s T [] hv
  · simp [Heap.view, hlen]
  · exact Nat.lt_succ_of_le (unvisited_le_card _)

/-- C8 on the diamond
`type T struct { A *U; B []U }; type U struct { X, Y string }`: `U` is reached
through `A` and through `B`, `string` through `X` and through `Y`, and the
result is success, also with the stack in one backing array of eight cells
that all calls write to. -/
theorem c8_no_false_cycle_witness :
    (∀ x, Reach gDiamond 0 x → ¬ Reach1 gDiamond x x) ∧
      (∀ c, supportedType gDiamond [] 0 ≠ .error (.recursiveType c)) ∧
      supportedType gDiamond [] 0 = .ok () ∧
      (supportedTypeMem gDiamond (fun _ => 0) 8 ⟨fun _ _ => none, 1⟩ ⟨0, 0, 8⟩ 0).map Prod.fst
        = some (.ok ()) :=
  have hacyc : ∀ x, Reach gDiamond 0 x → ¬ Reach1 gDiamond x x := fun _ _ h =>
    absurd (Reach1.rank_lt (fun x : Fin 7 => x.val) (by decide) h) (lt_irrefl _)
  ⟨hacyc, (c8_no_false_cycle gDiamond 0 hacyc).1, by decide, by decide⟩

/-- C9, the map key: for a type `t` that is not on the stack and whose
underlying shape is a map whose key type's underlying shape is not the basic
string kind, `supportedType(stack, t)` fails with the unsupported-map-key
diagnostic carrying the key type and the map type. The body gives this answer
whatever the recursive calls would return: the value type is not
classified. -/
theorem c9_map_key [DecidableEq Ty] [Fintype Ty] (g : TypeGraph Ty)
    (stack : List Ty) (t k v : Ty) (hmem : t ∉ stack)
    (hs : g.shape (g.underlying t) = .map k v)
    (hk : ∀ b, g.shape (g.underlying k) = .basic b → b.Kind ≠ .String) :
    supportedType g stack t = .error (.unsupportedMapKey k (g.underlying t)) ∧
      ∀ self, supportedTypeBody g self stack t
        = some (.error (.unsupportedMapKey k (g.underlying t))) := by
  have hkey : stringKey g k = false := by
    rcases hb : stringKey g k with _ | _
    · rfl
    · obtain ⟨b, h1, h2⟩ := (stringKey_iff g k).mp hb
      exact absurd h2 (hk b h1)
  refine ⟨?_, fun self => ?_⟩
  · rw [supportedType_map g hmem hs, if_neg (by simp [hkey])]
  · simp [supportedTypeBody, hmem, hs, hkey]

/-- C9 on `type M map[int]chan int`: the failure is the one of the key `int`,
with the map type, although the value type `chan int` is unsupported too. -/
theorem c9_map_key_witness :
    supportedType gMapInt ([] ++ [0]) 3 = .error (.unsupportedType 3) ∧
      supportedType gMapInt [] 0 = .error (.unsupportedMapKey 2 1) :=
  have hk : ∀ b, gMapInt.shape (gMapInt.underlying 2) = .basic b → b.Kind ≠ .String := by
    intro b hb
    have h2 : gMapInt.shape (gMapInt.underlying 2) = .basic (.typ .Int) := by decide
    rw [h2] at hb
    cases hb
    decide
  ⟨by decide, (c9_map_key gMapInt [] 0 2 3 (by decide) (by decide) hk).1⟩

/-- C10, a string-keyed map: for a map type whose key type's underlying shape
is the basic string kind and whose value type succeeds when classified on its
own with an empty stack, `supportedType` with an empty stack returns
success. -/
theorem c10_string_map [DecidableEq Ty] [Fintype Ty] (g : TypeGraph Ty) (M k v : Ty)
    (hs : g.shape (g.underlying M) = .map k v)
    (hk : ∃ b, g.shape (g.underlying k) = .basic b ∧ b.Kind = .String)
    (hv : supportedType g [] v = .ok ()) :
    supportedType g [] M = .ok () := by
  have hc : v ∈ children g M := by simp [children, hs]
  rw [supportedType_map g (List.not_mem_nil M) hs, if_pos ((stringKey_iff g k).mpr hk),
    ← hv]
  apply supportedType_stack_congr
  intro x hx
  constructor
  · intro hm
    have : x = M := by simpa using hm
    subst this
    exact absurd (Reach1.of_child hc hx) (supportedType_ok_sound g [] v hv x hx).2.2
  · intro hm
    exact absurd hm (List.not_mem_nil _)

/-- C10 on `type K string; map[K][]string`: the key is a named type defined
as `string`, the value type `[]string` is supported, and so is the map. -/
theorem c10_string_map_witness :
    supportedType gMapString [] 3 = .ok () ∧ supportedType gMapString [] 0 = .ok () :=
  ⟨by decide,
    c10_string_map gMapString 0 1 3 (by decide) ⟨.typ .String, by decide, by decide⟩
      (by decide)⟩

theorem fieldLoop_unexported (f : Ty → Outcome Ty) :
    ∀ fs : List (Field Ty), (∀ fld ∈ fs, fld.exported = false) →
      fieldLoop f fs = some (.ok ())
  | [], _ => rfl
  | fld :: rest, h => by
    unfold fieldLoop
    rw [if_neg (by simp [h fld (List.mem_cons_self _ _)])]
    exact fieldLoop_unexported f rest (fun x hx => h x (List.mem_cons_of_mem _ hx))

theorem Basic.String_invalid_iff (b : Basic) :
    b.String = "invalid type" ↔ b.Kind = .Invalid := by
  cases b with
  | byte => decide
  | rune => decide
  | typ k => cases k <;> decide

/-- C11, unexported fields: a struct type all of whose fields are
non-exported is supported, with an empty stack and with any stack it is not
on, whatever the types of the fields are; the body answers without a
recursive call, so no field type is looked at. -/
theorem c11_unexported_fields [DecidableEq Ty] [Fintype Ty] (g : TypeGraph Ty) (t : Ty)
    (fields : List (Field Ty)) (hs : g.shape (g.underlying t) = .struct fields)
    (hun : ∀ fld ∈ fields, fld.exported = false) :
    supportedType g [] t = .ok () ∧
    (∀ stack, t ∉ stack → supportedType g stack t = .ok ()) ∧
    ∀ self stack, t ∉ stack → supportedTypeBody g self stack t = some (.ok ()) := by
  have hbody : ∀ self stack, t ∉ stack →
      supportedTypeBody g self stack t = some (.ok ()) := by
    intro self stack hmem
    simp only [supportedTypeBody, hmem, if_false, hs]
    split
    · rfl
    · exact fieldLoop_unexported _ fields hun
  have hall : ∀ stack, t ∉ stack → supportedType g stack t = .ok () := by
    intro stack hmem
    have h := supportedType_fix g stack t
    rw [hbody _ stack hmem] at h
    exact (Option.some.inj h).symm
  exact ⟨hall [] (List.not_mem_nil t), hall, hbody⟩

/-- C11 on `type S struct { self *S; c chan int; bad T }` with `T`
unresolved: the three field types fail when classified under `[S]`, with the
recursive-type and the unsupported-type diagnostics, and `S` is supported. -/
theorem c11_unexported_fields_witness :
    supportedType gHidden ([] ++ [0]) 2 = .error (.recursiveType 0) ∧
      supportedType gHidden ([] ++ [0]) 3 = .error (.unsupportedType 3) ∧
      supportedType gHidden ([] ++ [0]) 4 = .error (.unsupportedType 4) ∧
      supportedType gHidden [] 0 = .ok () :=
  ⟨by decide, by decide, by decide,
    (c11_unexported_fields gHidden 0
      [⟨"self", 2, false⟩, ⟨"c", 3, false⟩, ⟨"bad", 4, false⟩] (by decide) (by decide)).1⟩

/-- C13, pointers, slices and arrays: for a type `t` that is not on the stack
and whose underlying shape is a pointer, a slice or an array with element type
`e`, `supportedType(stack, t)` is `supportedType(stack ++ [t], e)`: success
exactly when the element succeeds under the extended stack, and the element's
failure unchanged otherwise. -/
theorem c13_element [DecidableEq Ty] [Fintype Ty] (g : TypeGraph Ty)
    (stack : List Ty) (t e : Ty) (hmem : t ∉ stack)
    (hs : g.shape (g.underlying t) = .pointer e ∨ g.shape (g.underlying t) = .slice e ∨
      ∃ n, g.shape (g.underlying t) = .array n e) :
    supportedType g stack t = supportedType g (stack ++ [t]) e ∧
    (supportedType g stack t = .ok () ↔ supportedType g (stack ++ [t]) e = .ok ()) ∧
    ∀ err, supportedType g (stack ++ [t]) e = .error err →
      supportedType g stack t = .error err := by
  have heq : supportedType g stack t = supportedType g (stack ++ [t]) e := by
    rcases hs with hs | hs | ⟨n, hs⟩
    · exact supportedType_pointer g hmem hs
    · exact supportedType_slice g hmem hs
    · exact supportedType_array g hmem hs
  exact ⟨heq, by rw [heq], fun err he => by rw [heq, he]⟩

/-- C13 on the pointer `*U` and the slice `[]U` of the diamond, and on the
pointer `*S` of a struct that contains it: the element's result is the
container's. -/
theorem c13_element_witness :
    supportedType gDiamond [] 2 = supportedType gDiamond ([] ++ [2]) 4 ∧
      supportedType gDiamond [] 2 = .ok () ∧
      supportedType gSelf [] 3 = .error (.recursiveType 3) :=
  ⟨(c13_element gDiamond [] 2 4 (by decide) (Or.inl (by decide))).1, by decide, by decide⟩

/-- C14 fails on the code: for `type N chan int`, classified with an empty
stack, the diagnostic is `unsupported type chan int`: it carries the underlying
type, not the type `N` that was passed in. -/
theorem c14_unhandled_counterexample :
    gNamedField.shape 2 = .named ∧ gNamedField.shape (gNamedField.underlying 2) = .chan 4 ∧
      supportedType gNamedField [] 2 = .error (.unsupportedType 3) ∧
      supportedType gNamedField [] 2 ≠ .error (.unsupportedType 2) ∧
      (Err.unsupportedType (3 : Fin 8)).Error gNamedFieldString
        = "unsupported type chan int" := by
  decide

/-- C14 as amended: for a type `t` that is not on the stack and whose
underlying shape is one the switch has no case for, `supportedType(stack, t)`
fails with the unsupported-type diagnostic carrying the underlying type of
`t`. That is `t` itself when `Underlying()` returns `t`, as it does in a graph
of `go/types` for every `t` that is not a Named, TypeParam or Alias object; for
a named type declared with such a shape it is the type of the declaration. -/
theorem c14_unhandled_amended [DecidableEq Ty] [Fintype Ty] (g : TypeGraph Ty)
    (stack : List Ty) (t : Ty) (hmem : t ∉ stack)
    (hs : (g.shape (g.underlying t)).unhandled = true) :
    supportedType g stack t = .error (.unsupportedType (g.underlying t)) ∧
    (g.underlying t = t → supportedType g stack t = .error (.unsupportedType t)) ∧
    (g.resolved → (g.shape t).declared = false →
      supportedType g stack t = .error (.unsupportedType t)) := by
  have h := supportedType_unhandled g hmem hs
  refine ⟨h, fun hu => ?_, fun hres hd => ?_⟩
  · rw [h, hu]
  · rw [h, (hres t).2 hd]

/-- C14 as amended, on `chan int` and on `type N chan int`: both fail with
the diagnostic that carries `chan int`. -/
theorem c14_unhandled_amended_witness :
    supportedType gChan [] 0 = .error (.unsupportedType 0) ∧
      supportedType gNamedField [] 2
        = .error (.unsupportedType (gNamedField.underlying 2)) :=
  ⟨(c14_unhandled_amended gChan [] 0 (by decide) (by decide)).2.1 (by decide),
    (c14_unhandled_amended gNamedField [] 2 (by decide) (by decide)).1⟩

/-- C15, basic types: for a type `t` that is not on the stack and whose
underlying shape is a basic type, `supportedType(stack, t)` is success exactly
when the kind is not the invalid kind, and for the invalid kind it is the
unsupported-type failure; the body answers the same whatever its recursive
calls would return, so none is made. -/
theorem c15_basic [DecidableEq Ty] [Fintype Ty] (g : TypeGraph Ty)
    (stack : List Ty) (t : Ty) (b : Basic) (hmem : t ∉ stack)
    (hs : g.shape (g.underlying t) = .basic b) :
    (supportedType g stack t = .ok () ↔ b.Kind ≠ .Invalid) ∧
    (b.Kind = .Invalid →
      supportedType g stack t = .error (.unsupportedType (g.underlying t))) ∧
    ∀ self, supportedTypeBody g self stack t = some (supportedType g stack t) := by
  have h := supportedType_basic g hmem hs
  refine ⟨?_, ?_, ?_⟩
  · rw [h]
    by_cases hk : b.Kind = .Invalid
    · simp [hk, (Basic.String_invalid_iff b).mpr hk]
    · have : b.String ≠ "invalid type" := fun hc => hk ((Basic.String_invalid_iff b).mp hc)
      simp [hk, this]
  · intro hk
    rw [h, if_neg (by simp [(Basic.String_invalid_iff b).mpr hk])]
  · intro self
    rw [h]
    simp only [supportedTypeBody, hmem, if_false, hs]
    split <;> rfl

/-- C15 on the invalid type and on `int`: the first fails with the
unsupported-type diagnostic, the second is supported. -/
theorem c15_basic_witness :
    supportedType gHidden [] 4 = .error (.unsupportedType 4) ∧
      supportedType gHidden [] 5 = .ok () :=
  ⟨(c15_basic gHidden [] 4 (.typ .Invalid) (by decide) (by decide)).2.1 (by decide),
    (c15_basic gHidden [] 5 (.typ .Int) (by decide) (by decide)).1.mpr (by decide)⟩

/-- C18, soundness of a success: when `supportedType` with an empty stack
returns success for `T`, every type reachable from `T` along the edges the
classifier follows has an accepted shape: its underlying shape is not the
invalid basic type, is not one the switch has no case for, and if it is a map
its key's underlying shape is the basic string kind; and no reachable type
reaches itself. -/
theorem c18_soundness [DecidableEq Ty] [Fintype Ty] (g : TypeGraph Ty) (T : Ty)
    (hok : supportedType g [] T = .ok ()) :
    ∀ x, Reach g T x →
      (∀ b, g.shape (g.underlying x) = .basic b → b.Kind ≠ .Invalid) ∧
      (g.shape (g.underlying x)).unhandled = false ∧
      (∀ k v, g.shape (g.underlying x) = .map k v →
        ∃ b, g.shape (g.underlying k) = .basic b ∧ b.Kind = .String) ∧
      ¬ Reach1 g x x := by
  intro x hx
  obtain ⟨_, hacc, hcyc⟩ := supportedType_ok_sound g [] T hok x hx
  refine ⟨?_, ?_, ?_, hcyc⟩
  · intro b hb hk
    simp [accepted, hb, (Basic.String_invalid_iff b).mpr hk] at hacc
  · cases hs : g.shape (g.underlying x) <;> simp [accepted, hs, Shape.unhandled] at hacc ⊢
  · intro k v hs
    have : stringKey g k = true := by simpa [accepted, hs] using hacc
    exact (stringKey_iff g k).mp this

/-- C18 on the diamond
`type T struct { A *U; B []U }; type U struct { X, Y string }`, which is
accepted: the type `string` reached through `U` is a valid basic type and does
not reach itself. -/
theorem c18_soundness_witness :
    supportedType gDiamond [] 0 = .ok () ∧ Reach gDiamond 0 6 ∧
      (∀ b, gDiamond.shape (gDiamond.underlying 6) = .basic b → b.Kind ≠ .Invalid) ∧
      ¬ Reach1 gDiamond 6 6 :=
  have e1 : Edge gDiamond 0 2 := by
    show (2 : Fin 7) ∈ children gDiamond 0
    decide
  have e2 : Edge gDiamond 2 4 := by
    show (4 : Fin 7) ∈ children gDiamond 2
    decide
  have e3 : Edge gDiamond 4 6 := by
    show (6 : Fin 7) ∈ children gDiamond 4
    decide
  have hr : Reach gDiamond 0 6 :=
    Relation.ReflTransGen.head e1 (Relation.ReflTransGen.head e2 (Relation.ReflTransGen.single e3))
  have h := c18_soundness gDiamond 0 (by decide) 6 hr
  ⟨by decide, hr, h.1, h.2.2.2⟩

/-- C19, success is anti-monotone in the stack: when `supportedType(stack, t)`
returns success, so does `supportedType(stack2, t)` for every `stack2` whose
entries all occur in `stack`, the empty stack among them. -/
theorem c19_antimonotone [DecidableEq Ty] [Fintype Ty] (g : TypeGraph Ty)
    (stack : List Ty) (t : Ty) (hok : supportedType g stack t = .ok ()) :
    (∀ stack2 : List Ty, (∀ x ∈ stack2, x ∈ stack) → supportedType g stack2 t = .ok ()) ∧
    supportedType g [] t = .ok () := by
  have key : ∀ (stack : List Ty) (t : Ty), supportedType g stack t = .ok () →
      ∀ stack2 : List Ty, (∀ x ∈ stack2, x ∈ stack) → supportedType g stack2 t = .ok () := by
    refine supportedType_induct g
      (fun stack t => supportedType g stack t = .ok () →
        ∀ stack2 : List Ty, (∀ x ∈ stack2, x ∈ stack) → supportedType g stack2 t = .ok ()) ?_
    intro stack t ih hok stack2 hsub
    have hmem : t ∉ stack := by
      intro hm
      rw [supportedType_mem g hm] at hok
      exact absurd hok (by simp)
    have hmem2 : t ∉ stack2 := fun hm => hmem (hsub t hm)
    obtain ⟨hacc, hch⟩ := (supportedType_ok_iff g hmem).mp hok
    rw [supportedType_ok_iff g hmem2]
    refine ⟨hacc, fun c hc => ih hmem c hc (hch c hc) _ ?_⟩
    intro x hx
    rcases List.mem_append.mp hx with hx | hx
    · exact List.mem_append_left _ (hsub x hx)
    · exact List.mem_append_right _ hx
  exact ⟨key stack t hok, key stack t hok [] (fun x hx => absurd hx (List.not_mem_nil x))⟩

/-- C19 on `U` of the diamond, accepted under the path `[T, *U]` and so under
`[*U]` and on its own. -/
theorem c19_antimonotone_witness :
    supportedType gDiamond [0, 2] 4 = .ok () ∧ supportedType gDiamond [2] 4 = .ok () ∧
      supportedType gDiamond [] 4 = .ok () :=
  have h := c19_antimonotone gDiamond [0, 2] 4 (by decide)
  ⟨by decide, h.1 [2] (by decide), h.2⟩

theorem supportedTypeBodyUnified_eq [DecidableEq Ty] (g : TypeGraph Ty)
    (self : List Ty → Ty → Outcome Ty) (stack : List Ty) (t : Ty) :
    supportedTypeBodyUnified g self stack t = supportedTypeBody g self stack t := by
  unfold supportedTypeBodyUnified supportedTypeBody
  by_cases hmem : t ∈ stack
  · simp [hmem]
  · simp only [hmem, if_false]
    cases hs : g.shape (g.underlying t) with
    | struct fields =>
      simp only []
      by_cases h0 : fields.length = 0
      · rw [if_pos h0, List.length_eq_zero.mp h0]
        rfl
      · rw [if_neg h0]
    | _ => rfl

theorem supportedTypeUnifiedFuel_eq [DecidableEq Ty] (g : TypeGraph Ty) :
    ∀ (fuel : Nat) (stack : List Ty) (t : Ty),
      supportedTypeUnifiedFuel g fuel stack t = supportedTypeFuel g fuel stack t
  | 0, _, _ => rfl
  | fuel + 1, stack, t => by
    have ih : supportedTypeUnifiedFuel g fuel = supportedTypeFuel g fuel := by
      funext s c
      exact supportedTypeUnifiedFuel_eq g fuel s c
    rw [supportedTypeUnifiedFuel, supportedTypeFuel, ih, supportedTypeBodyUnified_eq]

/-- C17, the zero-field check: the variant of `supportedType` without the
early return for a struct with no fields returns what `supportedType` returns,
for every stack and every type: the two bodies agree for any behaviour of the
recursive calls, the two recursions agree at every depth, and the variant
returns the value of `supportedType` as soon as the depth allowed exceeds the
number of types that are not on the stack. -/
theorem c17_zero_field_check [DecidableEq Ty] [Fintype Ty] (g : TypeGraph Ty)
    (stack : List Ty) (t : Ty) :
    (∀ self, supportedTypeBodyUnified g self stack t = supportedTypeBody g self stack t) ∧
    (∀ fuel, supportedTypeUnifiedFuel g fuel stack t = supportedTypeFuel g fuel stack t) ∧
    (∀ fuel, unvisited stack < fuel →
      supportedTypeUnifiedFuel g fuel stack t = some (supportedType g stack t)) := by
  refine ⟨fun self => supportedTypeBodyUnified_eq g self stack t,
    fun fuel => supportedTypeUnifiedFuel_eq g fuel stack t, fun fuel h => ?_⟩
  rw [supportedTypeUnifiedFuel_eq]
  exact supportedTypeFuel_eq g h

/-- C17 on `type E struct{}; type W struct { A E; B E; C *E }`: the variant
accepts the struct without fields, and the struct that contains it, as
`supportedType` does. -/
theorem c17_zero_field_check_witness :
    gEmpty.shape (gEmpty.underlying 2) = .struct [] ∧
      supportedTypeUnifiedFuel gEmpty 6 [] 2 = some (supportedType gEmpty [] 2) ∧
      supportedTypeUnifiedFuel gEmpty 6 [] 0 = some (supportedType gEmpty [] 0) ∧
      supportedType gEmpty [] 0 = .ok () :=
  ⟨by decide, (c17_zero_field_check gEmpty [] 2).2.2 6 (by decide),
    (c17_zero_field_check gEmpty [] 0).2.2 6 (by decide), by decide⟩

theorem fieldLoopLog_fst {f : Ty → OutcomeLog Ty} {p : Ty → Outcome Ty}
    (h : ∀ c, (f c).map Prod.fst = p c) :
    ∀ fs : List (Field Ty), (fieldLoopLog f fs).map Prod.fst = fieldLoop p fs
  | [] => rfl
  | fld :: rest => by
    have ih := fieldLoopLog_fst h rest
    unfold fieldLoopLog fieldLoop
    by_cases hex : fld.exported = true
    · simp only [hex, if_true]
      have hc := h fld.typ
      cases hf : f fld.typ with
      | none =>
        rw [hf] at hc
        simp only [Option.map_none'] at hc
        simp [← hc]
      | some rl =>
        obtain ⟨r, l⟩ := rl
        rw [hf] at hc
        simp only [Option.map_some'] at hc
        rw [← hc]
        cases r with
        | error e => rfl
        | ok u =>
          simp only []
          rw [← ih]
          cases fieldLoopLog f rest with
          | none => rfl
          | some rl1 => rfl
    · simp only [hex, if_false]
      exact ih

theorem fieldLoopLog_mem {f : Ty → OutcomeLog Ty} {P : List Ty × Ty → Prop} :
    ∀ (fs : List (Field Ty)) (r : Except (Err Ty) Unit) (l : CallLog Ty),
      (∀ fld ∈ fs, fld.exported = true → ∀ r l, f fld.typ = some (r, l) → ∀ x ∈ l, P x) →
      fieldLoopLog f fs = some (r, l) → ∀ x ∈ l, P x
  | [], r, l, _, hr => by
    simp only [fieldLoopLog, Option.some.injEq, Prod.mk.injEq] at hr
    rw [← hr.2]
    intro x hx
    exact absurd hx (List.not_mem_nil x)
  | fld :: rest, r, l, h, hr => by
    have ih := fun r l => fieldLoopLog_mem rest r l
      (fun x hx => h x (List.mem_cons_of_mem _ hx))
    unfold fieldLoopLog at hr
    by_cases hex : fld.exported = true
    · simp only [hex, if_true] at hr
      have hc := h fld (List.mem_cons_self _ _) hex
      cases hf : f fld.typ with
      | none => simp [hf] at hr
      | some rl =>
        obtain ⟨r1, l1⟩ := rl
        rw [hf] at hr
        cases r1 with
        | error e =>
          simp only [Option.some.injEq, Prod.mk.injEq] at hr
          rw [← hr.2]
          exact hc _ _ hf
        | ok u =>
          simp only [] at hr
          cases hrest : fieldLoopLog f rest with
          | none => simp [hrest] at hr
          | some rl2 =>
            obtain ⟨r2, l2⟩ := rl2
            rw [hrest] at hr
            simp only [Option.some.injEq, Prod.mk.injEq] at hr
            rw [← hr.2]
            intro x hx
            rcases List.mem_append.mp hx with hx | hx
            · exact hc _ _ hf x hx
            · exact ih _ _ hrest x hx
    · simp only [hex, if_false] at hr
      exact ih _ _ hr

theorem supportedTypeBodyLog_fst [DecidableEq Ty] (g : TypeGraph Ty)
    {self : List Ty → Ty → OutcomeLog Ty} {p : List Ty → Ty → Outcome Ty}
    (h : ∀ s c, (self s c).map Prod.fst = p s c) (stack : List Ty) (t : Ty) :
    (supportedTypeBodyLog g self stack t).map Prod.fst = supportedTypeBody g p stack t := by
  unfold supportedTypeBodyLog supportedTypeBody
  by_cases hmem : t ∈ stack
  · simp [hmem]
  · simp only [hmem, if_false]
    cases hs : g.shape (g.underlying t) with
    | basic b =>
      simp only []
      split <;> rfl
    | pointer e => exact h _ e
    | slice e => exact h _ e
    | array n e => exact h _ e
    | map k e =>
      simp only []
      split
      · rfl
      · exact h _ e
    | struct fields =>
      simp only []
      split
      · rfl
      · exact fieldLoopLog_fst (h _) fields
    | _ => rfl

theorem supportedTypeBodyLog_mem [DecidableEq Ty] (g : TypeGraph Ty)
    {self : List Ty → Ty → OutcomeLog Ty} {P : List Ty × Ty → Prop}
    {stack : List Ty} {t : Ty} {r : Except (Err Ty) Unit} {l : CallLog Ty}
    (h : t ∉ stack → ∀ c ∈ children g t, ∀ r l,
      self (stack ++ [t]) c = some (r, l) → ∀ x ∈ l, P x)
    (hr : supportedTypeBodyLog g self stack t = some (r, l)) : ∀ x ∈ l, P x := by
  have hnil : ∀ r1 : Except (Err Ty) Unit,
      (some (r1, []) : OutcomeLog Ty) = some (r, l) → ∀ x ∈ l, P x := by
    intro r1 he x hx
    simp only [Option.some.injEq, Prod.mk.injEq] at he
    rw [← he.2] at hx
    exact absurd hx (List.not_mem_nil x)
  unfold supportedTypeBodyLog at hr
  by_cases hmem : t ∈ stack
  · simp only [hmem, if_true] at hr
    exact hnil _ hr
  · have hc := h hmem
    simp only [hmem, if_false] at hr
    cases hs : g.shape (g.underlying t) with
    | basic b =>
      simp only [hs] at hr
      split at hr <;> exact hnil _ hr
    | pointer e =>
      simp only [hs] at hr
      exact hc e (by simp [children, hs]) _ _ hr
    | slice e =>
      simp only [hs] at hr
      exact hc e (by simp [children, hs]) _ _ hr
    | array n e =>
      simp only [hs] at hr
      exact hc e (by simp [children, hs]) _ _ hr
    | map k e =>
      simp only [hs] at hr
      split at hr
      · exact hnil _ hr
      · exact hc e (by simp [children, hs]) _ _ hr
    | struct fields =>
      simp only [hs] at hr
      split at hr
      · exact hnil _ hr
      · exact fieldLoopLog_mem fields r l
          (fun fld hf hex => hc _ (mem_children_of_field hs hf hex)) hr
    | _ =>
      simp only [hs] at hr
      exact hnil _ hr

theorem supportedTypeLog_fst [DecidableEq Ty] (g : TypeGraph Ty) :
    ∀ (fuel : Nat) (stack : List Ty) (t : Ty),
      (supportedTypeLog g fuel stack t).map Prod.fst = supportedTypeFuel g fuel stack t
  | 0, _, _ => rfl
  | fuel + 1, stack, t => by
    have h := supportedTypeBodyLog_fst g (supportedTypeLog_fst g fuel) stack t
    rw [supportedTypeLog, supportedTypeFuel, ← h]
    cases supportedTypeBodyLog g (supportedTypeLog g fuel) stack t with
    | none => rfl
    | some rl => rfl

/-- Every stack in the log of a call is made of the entries of the stack of
that call and of types that have a component. -/
theorem supportedTypeLog_stack [DecidableEq Ty] (g : TypeGraph Ty) :
    ∀ (fuel : Nat) (stack : List Ty) (t : Ty) (r : Except (Err Ty) Unit) (l : CallLog Ty),
      supportedTypeLog g fuel stack t = some (r, l) →
      ∀ x ∈ l, ∀ s ∈ x.1, s ∈ stack ∨ children g s ≠ []
  | 0, _, _, _, _, h => by simp [supportedTypeLog] at h
  | fuel + 1, stack, t, r, l, h => by
    rw [supportedTypeLog] at h
    cases hb : supportedTypeBodyLog g (supportedTypeLog g fuel) stack t with
    | none => simp [hb] at h
    | some rl =>
      obtain ⟨r1, l1⟩ := rl
      rw [hb] at h
      simp only [Option.some.injEq, Prod.mk.injEq] at h
      rw [← h.2]
      intro x hx
      rcases List.mem_cons.mp hx with hx | hx
      · rw [hx]
        exact fun s hs => Or.inl hs
      · refine @supportedTypeBodyLog_mem _ _ g _
          (fun x => ∀ s ∈ x.1, s ∈ stack ∨ children g s ≠ []) _ _ _ _ ?_ hb x hx
        intro _ c hc r2 l2 hcall y hy s hs
        rcases supportedTypeLog_stack g fuel _ c r2 l2 hcall y hy s hs with h1 | h1
        · rcases List.mem_append.mp h1 with h2 | h2
          · exact Or.inl h2
          · have : s = t := by simpa using h2
            rw [this]
            exact Or.inr (List.ne_nil_of_mem hc)
        · exact Or.inr h1

theorem supportedTypeLog_head [DecidableEq Ty] (g : TypeGraph Ty) {fuel : Nat}
    {stack : List Ty} {t : Ty} {r : Except (Err Ty) Unit} {l : CallLog Ty}
    (h : supportedTypeLog g fuel stack t = some (r, l)) : (stack, t) ∈ l := by
  cases fuel with
  | zero => simp [supportedTypeLog] at h
  | succ n =>
    rw [supportedTypeLog] at h
    cases hb : supportedTypeBodyLog g (supportedTypeLog g n) stack t with
    | none => simp [hb] at h
    | some rl =>
      rw [hb] at h
      simp only [Option.some.injEq, Prod.mk.injEq] at h
      rw [← h.2]
      exact List.mem_cons_self _ _

/-- C12, a struct without fields: a call of `supportedType` with an empty
stack returns, and among the calls it makes, itself included, every call for a
type whose underlying shape is a struct with no fields finds that type absent
from the stack it is handed and returns success. -/
theorem c12_zero_fields [DecidableEq Ty] [Fintype Ty] (g : TypeGraph Ty) (T : Ty) :
    ∃ r l, supportedTypeLog g (Fintype.card Ty + 1) [] T = some (r, l) ∧
      r = supportedType g [] T ∧ ([], T) ∈ l ∧
      ∀ x ∈ l, g.shape (g.underlying x.2) = .struct [] →
        x.2 ∉ x.1 ∧ supportedType g x.1 x.2 = .ok () := by
  have hfst := supportedTypeLog_fst g (Fintype.card Ty + 1) [] T
  rw [supportedTypeFuel_eq g (Nat.lt_succ_of_le (unvisited_le_card _))] at hfst
  cases hlog : supportedTypeLog g (Fintype.card Ty + 1) [] T with
  | none => simp [hlog] at hfst
  | some rl =>
    obtain ⟨r, l⟩ := rl
    rw [hlog] at hfst
    simp only [Option.map_some', Option.some.injEq] at hfst
    refine ⟨r, l, rfl, hfst, supportedTypeLog_head g hlog, ?_⟩
    intro x hx hs
    have hch : children g x.2 = [] := by simp [children, hs]
    have hmem : x.2 ∉ x.1 := by
      intro hm
      rcases supportedTypeLog_stack g _ [] T r l hlog x hx x.2 hm with h1 | h1
      · exact absurd h1 (List.not_mem_nil _)
      · exact h1 hch
    refine ⟨hmem, ?_⟩
    rw [supportedType_struct g hmem hs]
    rfl

/-- C12 on `type E struct{}; type W struct { A E; B E; C *E }`: the call for
`W` makes three calls for `E`, two as fields and one below the pointer, each
with a stack that does not hold `E`, and each returns success. -/
theorem c12_zero_fields_witness :
    supportedTypeLog gEmpty (Fintype.card (Fin 5) + 1) [] 0
        = some (.ok (), [([], 0), ([0], 2), ([0], 2), ([0], 3), ([0, 3], 2)]) ∧
      gEmpty.shape (gEmpty.underlying 2) = .struct [] ∧
      supportedType gEmpty [0] 2 = .ok () ∧ supportedType gEmpty [0, 3] 2 = .ok () ∧
      ∃ r l, supportedTypeLog gEmpty (Fintype.card (Fin 5) + 1) [] 0 = some (r, l) ∧
        r = supportedType gEmpty [] 0 ∧ ([], 0) ∈ l ∧
        ∀ x ∈ l, gEmpty.shape (gEmpty.underlying x.2) = .struct [] →
          x.2 ∉ x.1 ∧ supportedType gEmpty x.1 x.2 = .ok () :=
  ⟨by decide, by decide, by decide, by decide, c12_zero_fields gEmpty 0⟩

/-- What the closure does to the map at one node. -/
theorem recordStructType_eq [DecidableEq Ty] (p : Package Ty) (n : Node) (m : typeInfo Ty) :
    recordStructType p (some n) m =
      (if n.kind = .structType then Function.update m (p.TypeOf n) (some n) else m, true) := by
  obtain ⟨id, k, cs⟩ := n
  cases k <;> simp [recordStructType, Node.kind]

mutual
theorem Inspect_recordStructType [DecidableEq Ty] (p : Package Ty) :
    ∀ (n : Node) (m : typeInfo Ty),
      Inspect (recordStructType p) n m
        = n.nodes.foldl (fun m x => (recordStructType p (some x) m).1) m
  | .mk id k cs, m => by
    rw [Inspect, Node.nodes, List.foldl_cons]
    have h2 : (recordStructType p (some (.mk id k cs)) m).2 = true := by
      rw [recordStructType_eq]
    simp only [h2, if_true]
    rw [InspectList_recordStructType p cs]
    rfl
theorem InspectList_recordStructType [DecidableEq Ty] (p : Package Ty) :
    ∀ (ns : List Node) (m : typeInfo Ty),
      InspectList (recordStructType p) ns m
        = (nodesList ns).foldl (fun m x => (recordStructType p (some x) m).1) m
  | [], m => by
    rw [InspectList, nodesList]
    rfl
  | c :: cs, m => by
    rw [InspectList, nodesList, List.foldl_append, Inspect_recordStructType p c,
      InspectList_recordStructType p cs]
end

theorem getTypeInfo_eq_foldl [DecidableEq Ty] (p : Package Ty) :
    getTypeInfo p
      = (nodesList p.Syntax).foldl (fun m x => (recordStructType p (some x) m).1)
          (fun _ => none) := by
  unfold getTypeInfo
  generalize (fun _ => none : typeInfo Ty) = m
  induction p.Syntax generalizing m with
  | nil => rfl
  | cons f fs ih =>
    rw [List.foldl_cons, ih, nodesList, List.foldl_append, Inspect_recordStructType]

theorem foldl_record_entry [DecidableEq Ty] (p : Package Ty) :
    ∀ (l : List Node) (m : typeInfo Ty) (k : Option Ty) (v : Node),
      l.foldl (fun m x => (recordStructType p (some x) m).1) m k = some v →
      (v ∈ l ∧ v.kind = .structType ∧ p.TypeOf v = k) ∨ m k = some v
  | [], m, k, v, h => Or.inr h
  | x :: l, m, k, v, h => by
    rw [List.foldl_cons] at h
    rcases foldl_record_entry p l _ k v h with ⟨h1, h2, h3⟩ | h1
    · exact Or.inl ⟨List.mem_cons_of_mem _ h1, h2, h3⟩
    · rw [recordStructType_eq] at h1
      by_cases hk : x.kind = .structType
      · simp only [hk, if_true] at h1
        by_cases hkey : k = p.TypeOf x
        · rw [hkey, Function.update_same] at h1
          have : x = v := Option.some.inj h1
          rw [← this]
          exact Or.inl ⟨List.mem_cons_self _ _, hk, hkey.symm⟩
        · rw [Function.update_noteq hkey] at h1
          exact Or.inr h1
      · simp only [hk, if_false] at h1
        exact Or.inr h1

theorem foldl_record_keep [DecidableEq Ty] (p : Package Ty) :
    ∀ (l : List Node) (m : typeInfo Ty) (k : Option Ty), (m k).isSome = true →
      (l.foldl (fun m x => (recordStructType p (some x) m).1) m k).isSome = true
  | [], _, _, h => h
  | x :: l, m, k, h => by
    rw [List.foldl_cons]
    apply foldl_record_keep p l
    rw [recordStructType_eq]
    by_cases hk : x.kind = .structType
    · simp only [hk, if_true]
      by_cases hkey : k = p.TypeOf x
      · rw [hkey, Function.update_same]
        rfl
      · rw [Function.update_noteq hkey]
        exact h
    · simp only [hk, if_false]
      exact h

theorem foldl_record_has [DecidableEq Ty] (p : Package Ty) :
    ∀ (l : List Node) (m : typeInfo Ty) (n : Node), n ∈ l → n.kind = .structType →
      (l.foldl (fun m x => (recordStructType p (some x) m).1) m (p.TypeOf n)).isSome = true
  | [], _, _, h, _ => absurd h (List.not_mem_nil _)
  | x :: l, m, n, h, hk => by
    rw [List.foldl_cons]
    rcases List.mem_cons.mp h with h | h
    · apply foldl_record_keep p l
      rw [recordStructType_eq, ← h]
      simp [hk]
    · exact foldl_record_has p l _ n h hk

/-- C16, the declaration index: the map returned by `getTypeInfo` has an
entry under the type resolved for every struct type node of the package's
syntax trees, nested ones included; each entry's value is a struct type node
of those trees that resolves to its key, so the keys are exactly the types
resolved for the struct type nodes, and no entry holds a node that is not a
struct type. -/
theorem c16_type_info [DecidableEq Ty] (p : Package Ty) :
    (∀ n ∈ p.structNodes, ∃ v, getTypeInfo p (p.TypeOf n) = some v) ∧
    (∀ k v, getTypeInfo p k = some v → v ∈ p.structNodes ∧ p.TypeOf v = k) ∧
    (∀ k, (∃ v, getTypeInfo p k = some v) ↔ ∃ n ∈ p.structNodes, p.TypeOf n = k) ∧
    (∀ k v, getTypeInfo p k = some v → v.kind = .structType) := by
  have hmem : ∀ n, n ∈ p.structNodes ↔ n ∈ nodesList p.Syntax ∧ n.kind = .structType := by
    intro n
    simp [Package.structNodes]
  have h1 : ∀ n ∈ p.structNodes, ∃ v, getTypeInfo p (p.TypeOf n) = some v := by
    intro n hn
    obtain ⟨hin, hk⟩ := (hmem n).mp hn
    rw [getTypeInfo_eq_foldl]
    exact Option.isSome_iff_exists.mp (foldl_record_has p _ _ n hin hk)
  have h2 : ∀ k v, getTypeInfo p k = some v → v ∈ p.structNodes ∧ p.TypeOf v = k := by
    intro k v hv
    rw [getTypeInfo_eq_foldl] at hv
    rcases foldl_record_entry p _ _ k v hv with ⟨ha, hb, hc⟩ | hnone
    · exact ⟨(hmem v).mpr ⟨ha, hb⟩, hc⟩
    · exact absurd hnone (by simp)
  refine ⟨h1, h2, ?_, ?_⟩
  · intro k
    constructor
    · rintro ⟨v, hv⟩
      exact ⟨v, (h2 k v hv).1, (h2 k v hv).2⟩
    · rintro ⟨n, hn, hk⟩
      rw [← hk]
      exact h1 n hn
  · intro k v hv
    exact ((hmem v).mp (h2 k v hv).1).2

/-- C16 on `type Outer struct { In struct { X int } }; var v = 1`: the map
holds the struct type of `Outer` and the nested struct type under their
types, and nothing under the nil type that the other nodes resolve to. -/
theorem c16_type_info_witness :
    getTypeInfo pkgOuter (some 0)
        = some (.mk 2 .structType [.mk 3 .other [.mk 4 .structType [.mk 5 .other []]]]) ∧
      getTypeInfo pkgOuter (some 1) = some (.mk 4 .structType [.mk 5 .other []]) ∧
      getTypeInfo pkgOuter (some 2) = none ∧ getTypeInfo pkgOuter none = none ∧
      ∀ k v, getTypeInfo pkgOuter k = some v → v.kind = .structType :=
  ⟨rfl, rfl, rfl, rfl, (c16_type_info pkgOuter).2.2.2⟩

end Cuegen
